import Mathlib

/-!
Verification of the entity classification and reconciliation engine of the
chris_ros_modeling repository.  Python source functions are shallowly embedded
as executable Lean definitions: dictionaries become association lists, Python
sets become duplicate-free lists (inserted only when absent, exactly as the
source checks membership before adding), and fallible lookups return Option.
Each embedded definition names the source function it mirrors.
-/

namespace ChrisRosModeling

/-! ## Generic Python-semantics helpers -/

/-- Association list lookup, mirroring Python dict access `d[k]` /
`d.get(k)`: returns the value bound to the first matching key. -/
def alookup (k : String) : List (String × String) → Option String
  | [] => none
  | (a, b) :: t => if a = k then some b else alookup k t

/-- Membership test mirroring Python `k in d` for a dict. -/
def akey (k : String) (d : List (String × String)) : Bool :=
  (alookup k d).isSome

/-- Python `c in s` for a single-character needle: character membership. -/
def pyContainsChar (s : String) (c : Char) : Bool :=
  s.data.contains c

/-- Python `str.strip()`: drop leading and trailing whitespace (the
whitespace classes of Lean and Python agree on every character the
repository ever handles). -/
def pyStrip (s : String) : String :=
  ⟨((s.data.dropWhile Char.isWhitespace).reverse.dropWhile Char.isWhitespace).reverse⟩

/-- Python `str.split(c)` for a one-character separator: splits into the
(always non-empty) list of chunks between separator occurrences. -/
def pySplitChar (c : Char) (s : String) : List String :=
  (s.data.foldr
    (fun ch acc =>
      if ch = c then [] :: acc
      else
        match acc with
        | h :: t => (ch :: h) :: t
        | [] => [[ch]])
    [[]]).map (fun l => ⟨l⟩)

/-- Python `'/'.join(xs)`-style joining with an arbitrary separator. -/
def pyJoin (sep : String) : List String → String
  | [] => ""
  | [x] => x
  | x :: y :: t => x ++ sep ++ pyJoin sep (y :: t)

/-- Python dict assignment `d[k] = v`: overwrite in place or append. -/
def pyDictSet (k v : String) : List (String × String) → List (String × String)
  | [] => [(k, v)]
  | (a, b) :: t => if a = k then (k, v) :: t else (a, b) :: pyDictSet k v t

/-! ## Dynamic attribute bag of `_EntityMetamodel`
(chris_ros_modeling/base_metamodel.py) -/

/-- Python values as stored in the dynamic attribute bag of
`_EntityMetamodel` (chris_ros_modeling/base_metamodel.py).  Container
elements are specialised to strings, which is how every claim-relevant
entity field uses them (node-name lists, provenance lists, name-to-type
dicts). -/
inductive PyVal where
  | vnone
  | vint (n : Int)
  | vstr (s : String)
  | vlist (xs : List String)
  | vset (xs : List String)
  | vdict (d : List (String × String))
deriving DecidableEq, Repr

/-- Python `str(...)` rendering as used by the version branch of
`update_attributes` (only the int and str cases are ever reached there). -/
def pyStr : PyVal → String
  | .vnone => "None"
  | .vint n => toString n
  | .vstr s => s
  | .vlist xs => String.intercalate ", " xs
  | .vset xs => String.intercalate ", " xs
  | .vdict d => String.intercalate ", " (d.map (fun p => p.1 ++ ": " ++ p.2))

/-- Python `int(x)` conversion attempt for the version branch: succeeds on
ints and numeric strings, fails (models the swallowed exception) otherwise. -/
def pyToInt : PyVal → Option Int
  | .vint n => some n
  | .vstr s => s.trim.toInt?
  | _ => none

/-- One key of `_EntityMetamodel.update_attributes`
(chris_ros_modeling/base_metamodel.py lines 183-239): given the current
value of the attribute and the keyword value, returns the new value of the
attribute.  `none` as current value means the attribute exists and is
Python None; a genuinely missing attribute is handled by the caller
`updateAttributes` below. -/
def updateAttributeValue (key : String) (val newVal : PyVal) : PyVal :=
  if val = .vnone then newVal
  else if val = newVal ∧ key ≠ "version" then val
  else if newVal = .vnone then val
  else if key = "version" then
    match val with
    | .vint n =>
        match pyToInt newVal with
        | some n2 => .vint (max n n2 + 1)
        | none => .vint (n + 1)
    | _ => .vstr (pyStr val ++ "_" ++ pyStr newVal)
  else
    match val with
    | .vlist xs =>
        match newVal with
        | .vlist ys => .vlist (xs ++ ys)
        | .vstr s => if s ∈ xs then .vlist xs else .vlist (xs ++ [s])
        | _ => .vlist xs
    | .vdict d =>
        match newVal with
        | .vdict d2 => .vdict (d2.foldl (fun acc p => pyDictSet p.1 p.2 acc) d)
        | _ => .vdict d
    | .vset xs =>
        match newVal with
        | .vset ys => .vset (xs ++ ys.filter (fun y => y ∉ xs))
        | .vlist ys => .vset (xs ++ ys.filter (fun y => y ∉ xs))
        | _ => .vset xs
    | .vstr s =>
        match newVal with
        | .vlist ys => .vlist (s :: ys)
        | .vstr s2 => if s2 = s then .vlist [s] else .vlist [s, s2]
        | _ => .vlist [s]
    | _ => newVal

/-- Attribute-bag update mirroring Python `setattr` on an existing
attribute: replaces the value bound to the key, keeping every other
attribute in place. -/
def attrSet (k : String) (v : PyVal) : List (String × PyVal) → List (String × PyVal)
  | [] => [(k, v)]
  | (a, b) :: t => if a = k then (k, v) :: t else (a, b) :: attrSet k v t

/-- Lookup in the attribute bag, mirroring `self.__getattribute__(key)`. -/
def attrGet (k : String) : List (String × PyVal) → Option PyVal
  | [] => none
  | (a, b) :: t => if a = k then some b else attrGet k t

/-- The full `_EntityMetamodel.update_attributes` over an entity modelled
as its attribute bag: each keyword argument is processed in turn; a key
with no current attribute is added (the AttributeError branch), otherwise
the attribute is rewritten by `updateAttributeValue`. -/
def updateAttributes (attrs : List (String × PyVal)) : List (String × PyVal) → List (String × PyVal)
  | [] => attrs
  | (key, newVal) :: rest =>
      match attrGet key attrs with
      | none => updateAttributes (attrSet key newVal attrs) rest
      | some val => updateAttributes (attrSet key (updateAttributeValue key val newVal) attrs) rest

/-! ## HAROS name completeness and the generic remodel pass
(chris_haros_model_merger/base_remodeler.py) -/

/-- Final path segment of a HAROS name, exactly as
`_BaseRemodeler._check_haros_name_is_complete`
(chris_haros_model_merger/base_remodeler.py lines 72-75) computes the token
it tests: strip, then the part after the last slash when the name contains
a slash, the whole stripped name otherwise. -/
def finalPathSegment (s : String) : String :=
  if pyContainsChar s '/' then (pySplitChar '/' (pyStrip s)).getLastD ""
  else pyStrip s

/-- Embedding of `_BaseRemodeler._check_haros_name_is_complete`: a name is
complete when the tested token is not the placeholder "?". -/
def checkHarosNameIsComplete (harosName : String) : Bool :=
  if pyContainsChar harosName '/' then
    ((pySplitChar '/' (pyStrip harosName)).getLastD "" != "?")
  else (pyStrip harosName != "?")

/-- First bank (in priority order) whose entity map already holds the
name, mirroring the search loop of `_BaseRemodeler.remodel`
(base_remodeler.py lines 227-235). -/
def findBankWith (name : String) : List (String × List (String × E)) → Option String
  | [] => none
  | (bid, bank) :: rest =>
      if (bank.map Prod.fst).contains name then some bid else findBankWith name rest

/-- Replace the entity bound to the name inside the given bank, leaving
all other banks and entities alone (the in-place merge of `remodel`). -/
def updateEntityIn (bid name : String) (f : String → E → E) :
    List (String × List (String × E)) → List (String × List (String × E))
  | [] => []
  | (b, bank) :: rest =>
      if b = bid then
        (b, bank.map (fun p => if p.1 = name then (p.1, f bid p.2) else p)) :: rest
      else (b, bank) :: updateEntityIn bid name f rest

/-- Creation path of `remodel`: a missing entity is created in the first
bank (`_create_new_chris_model` uses `keys()[0]`), then populated and
version-initialised; both effects are abstracted in the `create`
function.  A remodeler always exposes at least one bank, so the empty
case is unreachable. -/
def createInFirstBank (name : String) (create : String → E) :
    List (String × List (String × E)) → List (String × List (String × E))
  | [] => []
  | (b, bank) :: rest => (b, bank ++ [(name, create name)]) :: rest

/-- One iteration of `_BaseRemodeler.remodel` (base_remodeler.py lines
218-247) for one HAROS instance name, over the deployment model seen as a
priority-ordered list of banks: incomplete names are logged (second
component `true`) and skipped; otherwise the first bank holding the name
receives the merge, and if no bank holds it the entity is created in the
first bank.  The kind-specific merge and populate logic is passed in as
functions, as the source defers to abstract methods. -/
def remodelOne (merge : String → E → E) (create : String → E) (name : String)
    (banks : List (String × List (String × E))) :
    List (String × List (String × E)) × Bool :=
  if checkHarosNameIsComplete name then
    match findBankWith name banks with
    | some bid => (updateEntityIn bid name merge banks, false)
    | none => (createInFirstBank name create banks, false)
  else (banks, true)

/-! ## Nodelet-manager classification
(chris_ros_snapshot/node_builder.py) -/

/-- The part of a `NodeBuilder` state that the nodelet / nodelet-manager
classification reads (node_builder.py): published and subscribed topic
names, the running union `_all_topic_names` of both, and the name-to-type
dicts for topics and services. -/
structure NodeBuilderState where
  publishedTopicNames : List String
  subscribedTopicNames : List String
  allTopicNames : List String
  topicNamesToTypes : List (String × String)
  serviceNamesToTypes : List (String × String)
deriving DecidableEq, Repr

/-- The management-service triad test of
`NodeBuilder._gather_nodelet_manager_status` (node_builder.py lines
460-463): the set of provided-service types holds the nodelet list, load
and unload service types. -/
def hasNodeletServiceTriad (nb : NodeBuilderState) : Bool :=
  let serviceTypes := nb.serviceNamesToTypes.map Prod.snd
  serviceTypes.contains "nodelet/NodeletList"
    && serviceTypes.contains "nodelet/NodeletLoad"
    && serviceTypes.contains "nodelet/NodeletUnload"

/-- Loop of `NodeBuilder._gather_nodelet_manager_status` (node_builder.py
lines 458-464) over the topic names: on the first topic whose type is
bond/Status, return the triad test; a topic missing from the type dict is
a Python KeyError, modelled by `none`. -/
def gatherManagerAux (topicTypes : List (String × String)) (triad : Bool) :
    List String → Option Bool
  | [] => some false
  | t :: rest =>
      match alookup t topicTypes with
      | none => none
      | some ty =>
          if ty = "bond/Status" then some triad
          else gatherManagerAux topicTypes triad rest

/-- Embedding of `NodeBuilder._gather_nodelet_manager_status`: iterates
over `all_topic_names` (published and subscribed alike). -/
def gatherNodeletManagerStatus (nb : NodeBuilderState) : Option Bool :=
  gatherManagerAux nb.topicNamesToTypes (hasNodeletServiceTriad nb) nb.allTopicNames

/-- The property the claim asserts on the topic side: the node publishes
at least one topic of type bond/Status. -/
def publishesBondStatus (nb : NodeBuilderState) : Bool :=
  nb.publishedTopicNames.any (fun t => alookup t nb.topicNamesToTypes == some "bond/Status")

/-- The property the source actually tests: some recorded topic
(published or subscribed) has type bond/Status. -/
def hasBondStatusTopic (nb : NodeBuilderState) : Bool :=
  nb.allTopicNames.any (fun t => alookup t nb.topicNamesToTypes == some "bond/Status")

/-- A node builder that only subscribes to a bond/Status topic yet
provides the full management-service triad: the source classifies it as a
nodelet manager although it publishes no bond/Status topic. -/
def subscriberOnlyManager : NodeBuilderState :=
  { publishedTopicNames := []
    subscribedTopicNames := ["/manager/bond"]
    allTopicNames := ["/manager/bond"]
    topicNamesToTypes := [("/manager/bond", "bond/Status")]
    serviceNamesToTypes :=
      [("/manager/list", "nodelet/NodeletList"),
       ("/manager/load", "nodelet/NodeletLoad"),
       ("/manager/unload", "nodelet/NodeletUnload")] }

/-! ## Python `sorted` and `set` on strings -/

/-- Generic association-list lookup for non-string values. -/
def lookupKey {β : Type} (k : String) : List (String × β) → Option β
  | [] => none
  | (a, b) :: t => if a = k then some b else lookupKey k t

/-- Code-point lexicographic comparison on character lists: the order
Python uses to sort strings. -/
def charsLe : List Char → List Char → Bool
  | [], _ => true
  | _ :: _, [] => false
  | a :: as, b :: bs =>
      if a.toNat < b.toNat then true
      else if b.toNat < a.toNat then false
      else charsLe as bs

/-- String comparison: `a` sorts no later than `b`. -/
def strLeB (a b : String) : Bool := charsLe a.data b.data

/-- Insert into a sorted list, keeping it sorted. -/
def insertSorted (x : String) : List String → List String
  | [] => [x]
  | y :: t => if strLeB x y then x :: y :: t else y :: insertSorted x t

/-- Python `sorted(...)` on a collection of strings (insertion sort). -/
def pySorted : List String → List String
  | [] => []
  | x :: t => insertSorted x (pySorted t)

/-- Helper for `pySetList`: keep each string the first time it is seen. -/
def dedupAux (seen : List String) : List String → List String
  | [] => []
  | x :: t => if seen.contains x then dedupAux seen t else x :: dedupAux (x :: seen) t

/-- Python `set(...)` of strings as a duplicate-free list. -/
def pySetList (xs : List String) : List String := dedupAux [] xs

/-! ## Version and provenance bookkeeping of the merger
(chris_haros_model_merger/base_remodeler.py lines 169-196) -/

/-- The provenance tag `_BaseRemodeler.REMODELER_SOURCE_NAME`. -/
def remodelerSourceName : String := "haros_chris_model_merger"

/-- The `source` attribute of a CHRIS entity as the merger sees it: a
string, a list of strings, or anything else (the error-logged case,
e.g. Python None). -/
inductive SourceVal where
  | svnone
  | svstr (s : String)
  | svlist (xs : List String)
deriving DecidableEq, Repr

/-- The token set built by `_update_chris_model_version`: existing tokens
plus the remodeler tag, deduplicated and sorted. -/
def mergedSourceTokens (xs : List String) : List String :=
  pySorted (pySetList (xs ++ [remodelerSourceName]))

/-- Embedding of `_BaseRemodeler._update_chris_model_version`
(base_remodeler.py lines 169-196): when the helper reported an update the
version is incremented and the source gains the remodeler tag (lists are
rebuilt as sorted deduplicated lists; strings are split on commas,
stripped, deduplicated, sorted and re-joined; any other value is only
error-logged); otherwise nothing changes. -/
def updateChrisModelVersion (version : Nat) (source : SourceVal) (modelUpdated : Bool) :
    Nat × SourceVal :=
  if modelUpdated then
    match source with
    | .svlist xs => (version + 1, .svlist (mergedSourceTokens xs))
    | .svstr s =>
        (version + 1,
         .svstr (pyJoin ", " (mergedSourceTokens ((pySplitChar ',' s).map pyStrip))))
    | .svnone => (version + 1, .svnone)
  else (version, source)

/-! ## Topic merging
(chris_haros_model_merger/deployments/topic_remodeler.py) -/

/-- A CHRIS Topic entity as touched by `TopicRemodeler`: its construct
type (possibly unset), its publisher and subscriber node-name sets, and
the version / provenance metadata. -/
structure TopicEntity where
  constructType : Option String
  publisherNodeNames : List String
  subscriberNodeNames : List String
  version : Nat
  source : SourceVal
deriving DecidableEq, Repr

/-- A HAROS Topic as read by `TopicRemodeler`: its declared type and the
node ids of its publisher and subscriber links. -/
structure HarosTopic where
  harosType : String
  publishers : List String
  subscribers : List String
deriving DecidableEq, Repr

/-- One link of `TopicRemodeler._merge_haros_topic_links_with_chris_topic_nodes`
(topic_remodeler.py lines 63-82): a complete node name not yet in the set
is added and marks the model updated. -/
def mergeTopicLinkStep (acc : List String × Bool) (name : String) : List String × Bool :=
  if checkHarosNameIsComplete name then
    if acc.1.contains name then acc
    else (acc.1 ++ [name], true)
  else acc

/-- Embedding of `_merge_haros_topic_links_with_chris_topic_nodes`: folds
the publisher links into the publisher set and the subscriber links into
the subscriber set, reporting whether anything was added. -/
def mergeHarosTopicLinks (haros : HarosTopic) (chris : TopicEntity) : TopicEntity × Bool :=
  let p := haros.publishers.foldl mergeTopicLinkStep (chris.publisherNodeNames, false)
  let q := haros.subscribers.foldl mergeTopicLinkStep (chris.subscriberNodeNames, p.2)
  ({ chris with publisherNodeNames := p.1, subscriberNodeNames := q.1 }, q.2)

/-- Embedding of `TopicRemodeler._helper_merge_haros_model_with_chris_model`
(topic_remodeler.py lines 84-106): compares the two types (a difference is
only error-logged, the deployment type is never written), merges the node
links, and returns the updated entity, the update flag and whether the
type conflict was logged. -/
def helperMergeHarosTopic (haros : HarosTopic) (chris : TopicEntity) :
    TopicEntity × Bool × Bool :=
  let conflictLogged := some haros.harosType != chris.constructType
  let m := mergeHarosTopicLinks haros chris
  (m.1, m.2, conflictLogged)

/-- Embedding of `_BaseRemodeler._merge_haros_model_with_chris_model`
specialised to topics: helper merge followed by the version / provenance
update.  Returns the final entity and the conflict-logged flag. -/
def mergeHarosTopicFull (haros : HarosTopic) (chris : TopicEntity) : TopicEntity × Bool :=
  let r := helperMergeHarosTopic haros chris
  let vs := updateChrisModelVersion r.1.version r.1.source r.2.1
  ({ r.1 with version := vs.1, source := vs.2 }, r.2.2)

/-! ## Node merging
(chris_haros_model_merger/deployments/node_remodeler.py) -/

/-- Python truthiness of an optional string field (`not chris_model.node`
is true for None and for the empty string). -/
def pyTruthyStr : Option String → Bool
  | none => false
  | some s => s != ""

/-- Python truthiness of an optional list field (`not chris_model.cmdline`
is true for None and for an empty list). -/
def pyTruthyList : Option (List String) → Bool
  | none => false
  | some l => !l.isEmpty

/-- A CHRIS Node entity as touched by `NodeRemodeler`: the package/node
name, command line, launch file, the name-to-type dicts for parameters,
services and topics, and the version / provenance metadata. -/
structure NodeEntity where
  node : Option String
  cmdline : Option (List String)
  launchFile : Option String
  setParameterNames : List (String × String)
  readParameterNames : List (String × String)
  providedServices : List (String × String)
  clientServices : List (String × String)
  publishedTopicNames : List (String × String)
  subscribedTopicNames : List (String × String)
  version : Nat
  source : SourceVal
deriving DecidableEq, Repr

/-- A HAROS NodeInstance as read by `NodeRemodeler`: the node name, argv,
optional launch path, and the instance-name-to-parent-type pairs of its
parameter, service and topic links. -/
structure HarosNode where
  nodeName : Option String
  argv : Option (List String)
  launch : Option String
  writes : List (String × String)
  reads : List (String × String)
  servers : List (String × String)
  clients : List (String × String)
  publishers : List (String × String)
  subscribers : List (String × String)
deriving DecidableEq, Repr

/-- One link of `_merge_haros_node_links_with_chris_node_services` /
`..._parameters` (node_remodeler.py lines 69-84 and 102-118; the two
loops are textually identical up to attribute names): a complete name
already present is only validated (a type mismatch is error-logged with
no state change); a complete absent name is inserted with its parent type
and marks the model updated. -/
def mergeDictLinkStep (acc : List (String × String) × Bool) (link : String × String) :
    List (String × String) × Bool :=
  if checkHarosNameIsComplete link.1 then
    if akey link.1 acc.1 then acc
    else (acc.1 ++ [link], true)
  else acc

/-- Folding all service or parameter links into a CHRIS dict. -/
def mergeHarosLinksIntoDict (links : List (String × String)) (d : List (String × String)) :
    List (String × String) × Bool :=
  links.foldl mergeDictLinkStep (d, false)

/-- Embedding of `_BaseRemodeler._topic_is_part_of_action`
(base_remodeler.py lines 109-132) over the action bank modelled as
action name to topic-suffix names: the topic belongs to an action when
its base is an action name and its `/`-prefixed last token is one of that
action suffix keys. -/
def topicIsPartOfAction (actionBank : List (String × List String)) (topicName : String) : Bool :=
  let tokens := pySplitChar '/' topicName
  let suffix := "/" ++ tokens.getLastD ""
  let base := pyJoin "/" tokens.dropLast
  match lookupKey base actionBank with
  | some suffixes => suffixes.contains suffix
  | none => false

/-- One link of `_merge_haros_node_links_with_chris_node_topics`
(node_remodeler.py lines 138-167): a complete topic already recorded is
only validated; an absent one that is not part of an action and not a
bond/Status topic is inserted and marks the model updated (action members
and bond topics are deliberately not added). -/
def mergeTopicNodeLinkStep (actionBank : List (String × List String))
    (acc : List (String × String) × Bool) (link : String × String) :
    List (String × String) × Bool :=
  if checkHarosNameIsComplete link.1 then
    if akey link.1 acc.1 then acc
    else if topicIsPartOfAction actionBank link.1 then acc
    else if link.2 = "bond/Status" then acc
    else (acc.1 ++ [link], true)
  else acc

/-- Folding all published or subscribed topic links into a CHRIS dict. -/
def mergeHarosNodeTopics (actionBank : List (String × List String))
    (links : List (String × String)) (topics : List (String × String)) :
    List (String × String) × Bool :=
  links.foldl (mergeTopicNodeLinkStep actionBank) (topics, false)

/-- Embedding of `NodeRemodeler._helper_merge_haros_model_with_chris_model`
(node_remodeler.py lines 169-206): fills an empty node name or command
line, unconditionally copies a present launch path, merges parameter,
service and topic links, rebuilds the client-service dict from scratch
when any client link lands, and reports whether anything was (re)assigned. -/
def helperMergeNode (actionBank : List (String × List String)) (h : HarosNode)
    (c : NodeEntity) : NodeEntity × Bool :=
  let n1 : Option String × Bool :=
    if pyTruthyStr c.node then (c.node, false) else (h.nodeName, true)
  let m1 : Option (List String) × Bool :=
    if pyTruthyList c.cmdline then (c.cmdline, false) else (h.argv, true)
  let l1 : Option String × Bool :=
    match h.launch with
    | some p => (some p, true)
    | none => (c.launchFile, false)
  let sp := mergeHarosLinksIntoDict h.writes c.setParameterNames
  let rp := mergeHarosLinksIntoDict h.reads c.readParameterNames
  let pv := mergeHarosLinksIntoDict h.servers c.providedServices
  let cl := mergeHarosLinksIntoDict h.clients []
  let cs : List (String × String) × Bool :=
    if cl.2 then (cl.1, true) else (c.clientServices, false)
  let pt := mergeHarosNodeTopics actionBank h.publishers c.publishedTopicNames
  let st := mergeHarosNodeTopics actionBank h.subscribers c.subscribedTopicNames
  ({ c with
      node := n1.1, cmdline := m1.1, launchFile := l1.1,
      setParameterNames := sp.1, readParameterNames := rp.1,
      providedServices := pv.1, clientServices := cs.1,
      publishedTopicNames := pt.1, subscribedTopicNames := st.1 },
   n1.2 || m1.2 || l1.2 || sp.2 || rp.2 || pv.2 || cs.2 || pt.2 || st.2)

/-- The full node merge: `_merge_haros_model_with_chris_model` runs the
helper and then `_update_chris_model_version`. -/
def mergeHarosNodeFull (actionBank : List (String × List String)) (h : HarosNode)
    (c : NodeEntity) : NodeEntity :=
  let r := helperMergeNode actionBank h c
  let vs := updateChrisModelVersion r.1.version r.1.source r.2
  { r.1 with version := vs.1, source := vs.2 }

/-- A specification node that carries a launch file equal to the one the
deployment node already records, and nothing else new. -/
def launchOnlyHarosNode : HarosNode :=
  { nodeName := some "pkg/node", argv := some ["arg"], launch := some "/launch/f.launch",
    writes := [], reads := [], servers := [], clients := [],
    publishers := [], subscribers := [] }

/-- The matching deployment node: every field the merge would copy is
already present with the same value. -/
def launchOnlyChrisNode : NodeEntity :=
  { node := some "pkg/node", cmdline := some ["arg"], launchFile := some "/launch/f.launch",
    setParameterNames := [], readParameterNames := [], providedServices := [],
    clientServices := [], publishedTopicNames := [], subscribedTopicNames := [],
    version := 3, source := .svstr "ros_snapshot" }

/-! ## Action extraction from the topic bank
(chris_ros_snapshot/action_builder.py and topic_bank_builder.py) -/

/-- Generic dict assignment `d[k] = v` for arbitrary value types. -/
def pyDictSetG {β : Type} (k : String) (v : β) : List (String × β) → List (String × β)
  | [] => [(k, v)]
  | (a, b) :: t => if a = k then (k, v) :: t else (a, b) :: pyDictSetG k v t

/-- Python `s.endswith(suffix)`. -/
def pyEndsWith (s suffix : String) : Bool :=
  suffix.data.isSuffixOf s.data

/-- Python `s[:-len(suffix)]`: drop the trailing suffix (used only when
the suffix is known to be present). -/
def pyDropSuffix (s suffix : String) : String :=
  ⟨s.data.take (s.data.length - suffix.data.length)⟩

/-- The `_EntityBuilder.name_suffix` of a name: slash plus last token
(base_builders.py lines 39-41). -/
def nameSuffix (name : String) : String :=
  "/" ++ (pySplitChar '/' name).getLastD ""

/-- The `_EntityBuilder.name_base` of a name: all tokens but the last,
re-joined (base_builders.py lines 39-41). -/
def nameBase (name : String) : String :=
  pyJoin "/" (pySplitChar '/' name).dropLast

/-- `ActionBuilder.CLIENT_PUBLISHED_TOPIC_SUFFIXES`. -/
def clientPublishedTopicSuffixes : List String := ["/cancel", "/goal"]

/-- `ActionBuilder.SERVER_PUBLISHED_TOPIC_SUFFIXES`. -/
def serverPublishedTopicSuffixes : List String := ["/feedback", "/result", "/status"]

/-- `ActionBuilder.TOPIC_SUFFIXES`: the five-suffix vocabulary. -/
def topicSuffixes : List String :=
  clientPublishedTopicSuffixes ++ serverPublishedTopicSuffixes

/-- `ActionBuilder.NUM_TOPIC_SUFFIXES` (equals 5). -/
def numTopicSuffixes : Nat := topicSuffixes.length

/-- `ActionBuilder.CORE_TOPIC_SUFFIXES_TO_TYPE_TOKENS`. -/
def coreTopicSuffixesToTypeTokens : List (String × String) :=
  [("/feedback", "Feedback"), ("/goal", "Goal"), ("/result", "Result")]

/-- A `TopicBuilder` as the action extraction reads it: name, resolved
construct type, publisher and subscriber node-name sets
(chris_ros_snapshot/topic_builder.py). -/
structure TopicB where
  name : String
  constructType : String
  publisherNodeNames : List String
  subscriberNodeNames : List String
deriving DecidableEq, Repr

/-- An `ActionBuilder` in its populated state: the action name and the
two topic maps (by full name and by name suffix) filled by
`add_topic_builder` (action_builder.py lines 99-108). -/
structure ActionB where
  name : String
  topicNamesToBuilders : List (String × TopicB)
  topicNameSuffixesToBuilders : List (String × TopicB)
deriving DecidableEq, Repr

/-- A fresh `ActionBuilder(name)`. -/
def newActionB (name : String) : ActionB := ⟨name, [], []⟩

/-- `ActionBuilder.add_topic_builder`: record the topic under its full
name and under its name suffix. -/
def addTopicBuilder (ab : ActionB) (tb : TopicB) : ActionB :=
  { ab with
    topicNamesToBuilders := pyDictSetG tb.name tb ab.topicNamesToBuilders
    topicNameSuffixesToBuilders :=
      pyDictSetG (nameSuffix tb.name) tb ab.topicNameSuffixesToBuilders }

/-- `ActionBuilder.test_potential_action_topic_builder`: the suffix falls
in the five-suffix vocabulary. -/
def testPotentialActionTopicBuilder (tb : TopicB) : Bool :=
  topicSuffixes.contains (nameSuffix tb.name)

/-- `ActionBuilder._validate_topic_builders_have_required_suffixes`
(action_builder.py lines 234-251): at least 3 distinct suffixes, all
drawn from the vocabulary. -/
def validateTopicBuildersHaveRequiredSuffixes (tbs : List TopicB) : Bool :=
  let found := pySetList (tbs.map (fun tb => nameSuffix tb.name))
  decide (3 ≤ found.length) && found.all (fun s => topicSuffixes.contains s)

/-- `ActionBuilder._validate_core_topic_builders_have_required_types`
(action_builder.py lines 253-276): each core suffix is present and its
type ends with the matching Action token. -/
def validateCoreTopicBuildersHaveRequiredTypes
    (suffixMap : List (String × TopicB)) : Bool :=
  coreTopicSuffixesToTypeTokens.all (fun p =>
    match lookupKey p.1 suffixMap with
    | none => false
    | some tb => pyEndsWith tb.constructType ("Action" ++ p.2))

/-- `ActionBuilder.validate_action_topic_builders` (lines 278-290). -/
def validateActionTopicBuilders (ab : ActionB) : Bool :=
  validateTopicBuildersHaveRequiredSuffixes (ab.topicNamesToBuilders.map Prod.snd)
    && validateCoreTopicBuildersHaveRequiredTypes ab.topicNameSuffixesToBuilders

/-- Loop of `ActionBuilder._extract_action_construct_type`
(action_builder.py lines 304-333) over the core suffix/token pairs,
threading the accumulated construct type; a missing suffix, a type not
ending in its Action token, or a conflicting shared stem raises
ValueError, modelled as `Except.error`. -/
def extractConstructTypeAux (suffixMap : List (String × TopicB)) :
    List (String × String) → Option String → Except String String
  | [], acc =>
      match acc with
      | some ct => .ok ct
      | none => .error "no core suffix processed"
  | (suffix, token) :: rest, acc =>
      match lookupKey suffix suffixMap with
      | none => .error ("invalid construct type for topics: missing " ++ suffix)
      | some tb =>
          if pyEndsWith tb.constructType ("Action" ++ token) then
            let stem := pyDropSuffix tb.constructType ("Action" ++ token)
            match acc with
            | none => extractConstructTypeAux suffixMap rest (some stem)
            | some ct =>
                if ct = stem then extractConstructTypeAux suffixMap rest (some ct)
                else .error ("conflicting construct type " ++ ct ++ " vs " ++ tb.constructType)
          else .error ("invalid construct type from " ++ tb.constructType)

/-- `ActionBuilder._extract_action_construct_type` as a fallible
computation of the shared stem of the three core topic types. -/
def extractActionConstructType (ab : ActionB) : Except String String :=
  extractConstructTypeAux ab.topicNameSuffixesToBuilders coreTopicSuffixesToTypeTokens none

/-- `TopicBankBuilder._remove_action_topic_builders` (topic_bank_builder.py
lines 122-131): pop each of the action topics from the bank. -/
def removeActionTopicBuilders (topics : List (String × TopicB))
    (bank : List (String × TopicB)) : List (String × TopicB) :=
  topics.foldl (fun b p => b.filter (fun q => q.1 ≠ p.2.name)) bank

/-- `TopicBankBuilder.extract_action_builders_from_internal_topic_builders`
(topic_bank_builder.py lines 94-120): group candidate topics by name base
into action builders, then keep each valid action (removing its topics
from the bank) and drop each invalid one (leaving its topics in place).
Returns the surviving actions and the remaining topic bank. -/
def extractActionBuilders (bank : List (String × TopicB)) :
    List (String × ActionB) × List (String × TopicB) :=
  let grouped := bank.foldl
    (fun acc p =>
      if testPotentialActionTopicBuilder p.2 then
        let base := nameBase p.2.name
        let ab :=
          match lookupKey base acc with
          | some ab => ab
          | none => newActionB base
        pyDictSetG base (addTopicBuilder ab p.2) acc
      else acc)
    []
  grouped.foldl
    (fun (acc : List (String × ActionB) × List (String × TopicB)) p =>
      if validateActionTopicBuilders p.2 then
        (acc.1 ++ [p], removeActionTopicBuilders p.2.topicNamesToBuilders acc.2)
      else acc)
    ([], bank)

/-! ## Action client / server role counting
(chris_ros_snapshot/action_builder.py lines 130-217) -/

/-- `ActionBuilder._add_or_increment_dictionary_count` (lines 156-171). -/
def addOrIncrementDictionaryCount (counts : List (String × Nat)) (key : String) :
    List (String × Nat) :=
  match lookupKey key counts with
  | none => counts ++ [(key, 1)]
  | some n => pyDictSetG key (n + 1) counts

/-- One suffix family of `ActionBuilder._count_action_node_appearances`
(lines 147-154): for each suffix look up its topic builder (a missing
suffix is an unguarded Python KeyError, modelled as `none`) and count its
publisher (or subscriber) node names. -/
def countBySuffixes (suffixMap : List (String × TopicB)) (usePublishers : Bool) :
    List String → List (String × Nat) → Option (List (String × Nat))
  | [], counts => some counts
  | s :: rest, counts =>
      match lookupKey s suffixMap with
      | none => none
      | some tb =>
          let nodes := if usePublishers then tb.publisherNodeNames else tb.subscriberNodeNames
          countBySuffixes suffixMap usePublishers rest
            (nodes.foldl addOrIncrementDictionaryCount counts)

/-- `ActionBuilder._count_action_node_appearances`: publisher suffixes
first with publisher names, then subscriber suffixes with subscriber
names. -/
def countActionNodeAppearances (suffixMap : List (String × TopicB))
    (pubSuffixes subSuffixes : List String) : Option (List (String × Nat)) :=
  match countBySuffixes suffixMap true pubSuffixes [] with
  | none => none
  | some c1 => countBySuffixes suffixMap false subSuffixes c1

/-- `ActionBuilder._gather_valid_action_node_names_based_on_appearance_counts`
(lines 173-194): names whose count is exactly `NUM_TOPIC_SUFFIXES` are
valid; all others are error-logged (kept here as the second component). -/
def gatherValidActionNodeNames (counts : List (String × Nat)) :
    List String × List String :=
  ((counts.filter (fun p => p.2 = numTopicSuffixes)).map Prod.fst,
   (counts.filter (fun p => p.2 ≠ numTopicSuffixes)).map Prod.fst)

/-- `ActionBuilder._gather_action_client_and_server_names` (lines
196-217): count client-side and server-side appearances and keep the
exactly-five names of each, together with the logged rejections. -/
def gatherActionClientAndServerNames (ab : ActionB) :
    Option ((List String × List String) × (List String × List String)) :=
  match countActionNodeAppearances ab.topicNameSuffixesToBuilders
      clientPublishedTopicSuffixes serverPublishedTopicSuffixes with
  | none => none
  | some clientCounts =>
      match countActionNodeAppearances ab.topicNameSuffixesToBuilders
          serverPublishedTopicSuffixes clientPublishedTopicSuffixes with
      | none => none
      | some serverCounts =>
          some (gatherValidActionNodeNames clientCounts,
                gatherValidActionNodeNames serverCounts)

/-- The count a node accumulates over one suffix family: sum of its
occurrences in the chosen node list of each suffix topic. -/
def appearancesOver (suffixMap : List (String × TopicB)) (usePublishers : Bool) :
    List String → String → Nat
  | [], _ => 0
  | s :: rest, n =>
      (match lookupKey s suffixMap with
        | some tb =>
            (if usePublishers then tb.publisherNodeNames
             else tb.subscriberNodeNames).count n
        | none => 0)
      + appearancesOver suffixMap usePublishers rest n

/-- The client-side appearance count of a node: publisher occurrences on
goal/cancel plus subscriber occurrences on feedback/result/status. -/
def clientAppearances (suffixMap : List (String × TopicB)) (n : String) : Nat :=
  appearancesOver suffixMap true clientPublishedTopicSuffixes n
    + appearancesOver suffixMap false serverPublishedTopicSuffixes n

/-- The server-side appearance count of a node: publisher occurrences on
feedback/result/status plus subscriber occurrences on goal/cancel. -/
def serverAppearances (suffixMap : List (String × TopicB)) (n : String) : Nat :=
  appearancesOver suffixMap true serverPublishedTopicSuffixes n
    + appearancesOver suffixMap false clientPublishedTopicSuffixes n

/-- Lookup-with-default-zero over a counts dict. -/
def countOf (counts : List (String × Nat)) (n : String) : Nat :=
  (lookupKey n counts).getD 0

/-- The five-topic bank of the literal action-promotion scenario. -/
def promotionScenarioBank : List (String × TopicB) :=
  [("/r/move/goal", ⟨"/r/move/goal", "pkg/MoveActionGoal", [], []⟩),
   ("/r/move/cancel", ⟨"/r/move/cancel", "actionlib_msgs/GoalID", [], []⟩),
   ("/r/move/feedback", ⟨"/r/move/feedback", "pkg/MoveActionFeedback", [], []⟩),
   ("/r/move/result", ⟨"/r/move/result", "pkg/MoveActionResult", [], []⟩),
   ("/r/move/status", ⟨"/r/move/status", "actionlib_msgs/GoalStatusArray", [], []⟩)]

/-- The same bank with the result topic typed under a different stem. -/
def rejectionScenarioBank : List (String × TopicB) :=
  [("/r/move/goal", ⟨"/r/move/goal", "pkg/MoveActionGoal", [], []⟩),
   ("/r/move/cancel", ⟨"/r/move/cancel", "actionlib_msgs/GoalID", [], []⟩),
   ("/r/move/feedback", ⟨"/r/move/feedback", "pkg/MoveActionFeedback", [], []⟩),
   ("/r/move/result", ⟨"/r/move/result", "other/MoveActionResult", [], []⟩),
   ("/r/move/status", ⟨"/r/move/status", "actionlib_msgs/GoalStatusArray", [], []⟩)]

/-- A populated five-suffix action whose node `/c` is a full client,
`/s` a full server, and `/p` a partial (goal-only) publisher. -/
def fiveTopicAction : ActionB :=
  ⟨"/r/move",
   [("/r/move/goal", ⟨"/r/move/goal", "pkg/MoveActionGoal", ["/c", "/p"], ["/s"]⟩),
    ("/r/move/cancel", ⟨"/r/move/cancel", "actionlib_msgs/GoalID", ["/c"], ["/s"]⟩),
    ("/r/move/feedback", ⟨"/r/move/feedback", "pkg/MoveActionFeedback", ["/s"], ["/c"]⟩),
    ("/r/move/result", ⟨"/r/move/result", "pkg/MoveActionResult", ["/s"], ["/c"]⟩),
    ("/r/move/status", ⟨"/r/move/status", "actionlib_msgs/GoalStatusArray", ["/s"], ["/c"]⟩)],
   [("/goal", ⟨"/r/move/goal", "pkg/MoveActionGoal", ["/c", "/p"], ["/s"]⟩),
    ("/cancel", ⟨"/r/move/cancel", "actionlib_msgs/GoalID", ["/c"], ["/s"]⟩),
    ("/feedback", ⟨"/r/move/feedback", "pkg/MoveActionFeedback", ["/s"], ["/c"]⟩),
    ("/result", ⟨"/r/move/result", "pkg/MoveActionResult", ["/s"], ["/c"]⟩),
    ("/status", ⟨"/r/move/status", "actionlib_msgs/GoalStatusArray", ["/s"], ["/c"]⟩)]⟩

/-- A three-suffix cluster (goal, feedback, result only) that passes the
at-least-3-known-suffixes qualification but lacks /cancel and /status. -/
def threeSuffixAction : ActionB :=
  ⟨"/r/move",
   [("/r/move/goal", ⟨"/r/move/goal", "pkg/MoveActionGoal", ["/c"], ["/s"]⟩),
    ("/r/move/feedback", ⟨"/r/move/feedback", "pkg/MoveActionFeedback", ["/s"], ["/c"]⟩),
    ("/r/move/result", ⟨"/r/move/result", "pkg/MoveActionResult", ["/s"], ["/c"]⟩)],
   [("/goal", ⟨"/r/move/goal", "pkg/MoveActionGoal", ["/c"], ["/s"]⟩),
    ("/feedback", ⟨"/r/move/feedback", "pkg/MoveActionFeedback", ["/s"], ["/c"]⟩),
    ("/result", ⟨"/r/move/result", "pkg/MoveActionResult", ["/s"], ["/c"]⟩)]⟩

/-! ## Token matcher
(chris_ros_snapshot/ros_snapshot.py, `ROSSnapshot._match_token_types`,
lines 299-358) -/

/-- Sub-list containment on characters: Python substring test. -/
def hasSubList (needle : List Char) : List Char → Bool
  | [] => needle.isEmpty
  | c :: t => needle.isPrefixOf (c :: t) || hasSubList needle t

/-- Python `needle in hay` on strings. -/
def strContainsSub (hay needle : String) : Bool :=
  hasSubList needle.data hay.data

/-- First key of the list whose declared type equals the wanted type: the
inner loops of `_match_token_types` (`for test in sorted(...): if
spec_types[test] == io_type:`). -/
def firstTyped (specTypes : List (String × String)) (ioType : String) :
    List String → Option String
  | [] => none
  | k :: rest =>
      if alookup k specTypes == some ioType then some k
      else firstTyped specTypes ioType rest

/-- The per-name body of `_match_token_types` (ros_snapshot.py lines
319-349): exact final-segment-plus-type match consumes the token itself;
otherwise the keys of which the deployed token is a substring
(`token in ss`) are tried in sorted order for a same-typed match, then the
remaining keys in sorted order; an unassigned name is logged and flags
the validation failure (third component false). -/
def matchOneToken (specTypes : List (String × String)) (ioType token : String)
    (cur : Option String) (available : List String) :
    Option String × List String × Bool :=
  if available.contains token && (alookup token specTypes == some ioType) then
    (some token, available.erase token, true)
  else
    let potential := available.filter (fun ss => strContainsSub ss token)
    let remaining := available.filter (fun ss => !(strContainsSub ss token))
    let r1 : Option String × List String :=
      match firstTyped specTypes ioType (pySorted potential) with
      | some test => (some test, available.erase test)
      | none => (cur, available)
    let r2 : Option String × List String :=
      if r1.1 = none then
        match firstTyped specTypes ioType (pySorted remaining) with
        | some test => (some test, r1.2.erase test)
        | none => r1
      else r1
    (r2.1, r2.2, r2.1.isSome)

/-- The loop of `_match_token_types` over the sorted deployed names,
threading the name-to-assignment dict, the unconsumed catalog keys and
the validity flag. -/
def matchTokensLoop (ioTypes : String → String) (specTypes : List (String × String)) :
    List String → List (String × Option String) → List String → Bool →
    List (String × Option String) × List String × Bool
  | [], ioNames, available, valid => (ioNames, available, valid)
  | name :: rest, ioNames, available, valid =>
      let token := (pySplitChar '/' name).getLastD ""
      let cur := (lookupKey name ioNames).getD none
      let r := matchOneToken specTypes (ioTypes name) token cur available
      matchTokensLoop ioTypes specTypes rest
        (pyDictSetG name r.1 ioNames) r.2.1 (valid && r.2.2)

/-- Embedding of `ROSSnapshot._match_token_types`: with no catalog the
result is False for a non-empty deployed map and Python None (modelled
`none`) otherwise; with a catalog every deployed name is processed in
sorted order against the unconsumed catalog keys.  `ioTypes` abstracts
`io_builders[io_name].construct_type`. -/
def matchTokenTypes (ioTypes : String → String) (ioNames : List (String × Option String))
    (specTypes : Option (List (String × String))) :
    List (String × Option String) × Option Bool :=
  match specTypes with
  | none => if 0 < ioNames.length then (ioNames, some false) else (ioNames, none)
  | some st =>
      let r := matchTokensLoop ioTypes st (pySorted (ioNames.map Prod.fst)) ioNames
        (pySetList (st.map Prod.fst)) true
      (r.1, some r.2.2)

/-- Modelled from the claim text, for comparison with the source: the
same matcher but with the substring preference read the other way around
(the catalog key is a substring of the deployed final segment). -/
def matchOneTokenClaim (specTypes : List (String × String)) (ioType token : String)
    (cur : Option String) (available : List String) :
    Option String × List String × Bool :=
  if available.contains token && (alookup token specTypes == some ioType) then
    (some token, available.erase token, true)
  else
    let potential := available.filter (fun ss => strContainsSub token ss)
    let remaining := available.filter (fun ss => !(strContainsSub token ss))
    let r1 : Option String × List String :=
      match firstTyped specTypes ioType (pySorted potential) with
      | some test => (some test, available.erase test)
      | none => (cur, available)
    let r2 : Option String × List String :=
      if r1.1 = none then
        match firstTyped specTypes ioType (pySorted remaining) with
        | some test => (some test, r1.2.erase test)
        | none => r1
      else r1
    (r2.1, r2.2, r2.1.isSome)

/-- The claim-side matcher loop. -/
def matchTokensLoopClaim (ioTypes : String → String) (specTypes : List (String × String)) :
    List String → List (String × Option String) → List String → Bool →
    List (String × Option String) × List String × Bool
  | [], ioNames, available, valid => (ioNames, available, valid)
  | name :: rest, ioNames, available, valid =>
      let token := (pySplitChar '/' name).getLastD ""
      let cur := (lookupKey name ioNames).getD none
      let r := matchOneTokenClaim specTypes (ioTypes name) token cur available
      matchTokensLoopClaim ioTypes specTypes rest
        (pyDictSetG name r.1 ioNames) r.2.1 (valid && r.2.2)

/-- The claim-side matcher. -/
def matchTokenTypesClaim (ioTypes : String → String)
    (ioNames : List (String × Option String))
    (specTypes : Option (List (String × String))) :
    List (String × Option String) × Option Bool :=
  match specTypes with
  | none => if 0 < ioNames.length then (ioNames, some false) else (ioNames, none)
  | some st =>
      let r := matchTokensLoopClaim ioTypes st (pySorted (ioNames.map Prod.fst)) ioNames
        (pySetList (st.map Prod.fst)) true
      (r.1, some r.2.2)

/-! ## Theorems -/

/-- Setting the attribute back to the value it already holds leaves the
attribute bag unchanged. -/
theorem attrSet_eq_self (k : String) (v : PyVal) (attrs : List (String × PyVal))
    (h : attrGet k attrs = some v) : attrSet k v attrs = attrs := by
  induction attrs with
  | nil => simp [attrGet] at h
  | cons p t ih =>
      obtain ⟨a, b⟩ := p
      by_cases hak : a = k
      · subst hak
        simp [attrGet] at h
        simp [attrSet, h]
      · simp [attrGet, Ne.symm hak, hak] at h ⊢
        simp [attrSet, hak]
        exact ih h

/-- C10: the dynamic attribute update (`_EntityMetamodel.update_attributes`)
does not behave as claimed on every key: for the key "version" a current
string value and a different new string are concatenated with an
underscore instead of being collected into a two-element list. -/
theorem update_attributes_version_counterexample :
    updateAttributes [("version", PyVal.vstr "a")] [("version", PyVal.vstr "b")]
      = [("version", PyVal.vstr "a_b")]
    ∧ updateAttributes [("version", PyVal.vstr "a")] [("version", PyVal.vstr "b")]
      ≠ [("version", PyVal.vlist ["a", "b"])] := by
  constructor
  · rfl
  · decide

/-- C10 (amended): for every key other than "version" whose current value is
a non-empty string, updating with a different string turns the field into
the two-element list holding the old string and then the new one (leaving
every other attribute in place), while updating with the equal string
leaves the whole entity unchanged. -/
theorem update_attributes_string_merge (attrs : List (String × PyVal))
    (key old new : String) (hget : attrGet key attrs = some (.vstr old))
    (_hnonempty : old ≠ "") (hdiff : new ≠ old) (hkey : key ≠ "version") :
    updateAttributes attrs [(key, .vstr new)] = attrSet key (.vlist [old, new]) attrs
    ∧ updateAttributes attrs [(key, .vstr old)] = attrs := by
  have hvalne : PyVal.vstr old ≠ PyVal.vnone := by simp
  have hchanged : updateAttributeValue key (.vstr old) (.vstr new) = .vlist [old, new] := by
    have hok : ¬(PyVal.vstr old = PyVal.vstr new ∧ key ≠ "version") := by
      intro hc
      exact hdiff (by simpa using hc.1.symm)
    simp [updateAttributeValue, hvalne, hok, hkey, hdiff, Ne.symm hdiff]
  have hsame : updateAttributeValue key (.vstr old) (.vstr old) = .vstr old := by
    simp [updateAttributeValue, hvalne, hkey]
  constructor
  · simp [updateAttributes, hget, hchanged]
  · simp [updateAttributes, hget, hsame, attrSet_eq_self key (.vstr old) attrs hget]

/-- Witness for the amended C10 at a concrete entity. -/
theorem update_attributes_string_merge_witness :
    attrGet "launch_file" [("name", PyVal.vstr "/n"), ("launch_file", PyVal.vstr "a.launch")]
      = some (.vstr "a.launch")
    ∧ updateAttributes [("name", PyVal.vstr "/n"), ("launch_file", PyVal.vstr "a.launch")]
        [("launch_file", PyVal.vstr "b.launch")]
      = attrSet "launch_file" (.vlist ["a.launch", "b.launch"])
          [("name", PyVal.vstr "/n"), ("launch_file", PyVal.vstr "a.launch")]
    ∧ updateAttributes [("name", PyVal.vstr "/n"), ("launch_file", PyVal.vstr "a.launch")]
        [("launch_file", PyVal.vstr "a.launch")]
      = [("name", PyVal.vstr "/n"), ("launch_file", PyVal.vstr "a.launch")] := by
  refine ⟨by decide, ?_⟩
  exact update_attributes_string_merge
    [("name", PyVal.vstr "/n"), ("launch_file", PyVal.vstr "a.launch")]
    "launch_file" "a.launch" "b.launch" (by decide) (by decide) (by decide) (by decide)

/-- The completeness check is the negation of the final segment being the
placeholder token. -/
theorem checkHarosNameIsComplete_eq (s : String) :
    checkHarosNameIsComplete s = (finalPathSegment s != "?") := by
  unfold checkHarosNameIsComplete finalPathSegment
  by_cases h : pyContainsChar s '/' <;> simp [h]

/-- C8: a specification entity whose name has the placeholder "?" as its
final path segment is never merged into any deployment entity and never
creates one: every bank of the deployment model is returned unchanged and
the data-quality warning is logged (flag `true`). -/
theorem remodel_skips_placeholder_names {E : Type} (merge : String → E → E)
    (create : String → E) (name : String)
    (banks : List (String × List (String × E)))
    (h : finalPathSegment name = "?") :
    remodelOne merge create name banks = (banks, true) := by
  have hc : checkHarosNameIsComplete name = false := by
    rw [checkHarosNameIsComplete_eq, h]
    rfl
  simp [remodelOne, hc]

/-- Witness for C8 on a concrete placeholder name and model. -/
theorem remodel_skips_placeholder_names_witness :
    finalPathSegment "/robot/?" = "?"
    ∧ remodelOne (fun _ e => e) (fun _ => (0 : Nat)) "/robot/?"
        [("node", [("/robot/driver", 1)]), ("nodelet", [])]
      = ([("node", [("/robot/driver", 1)]), ("nodelet", [])], true) :=
  ⟨by decide, remodel_skips_placeholder_names _ _ _ _ (by decide)⟩

/-- C5: the nodelet-manager classification is not equivalent to the
claimed publish-side condition: a node that merely subscribes to a
bond/Status topic while providing the three management services is
classified as a manager even though it publishes no bond/Status topic. -/
theorem nodelet_manager_subscriber_counterexample :
    gatherNodeletManagerStatus subscriberOnlyManager = some true
    ∧ publishesBondStatus subscriberOnlyManager = false := by
  decide

/-- Helper for the amended C5: the classification loop over any topic-name
list in which every name has a recorded type computes exactly
"some topic has type bond/Status AND the service triad is present". -/
theorem gatherManagerAux_eq (topicTypes : List (String × String)) (triad : Bool)
    (ts : List String) (h : ∀ t ∈ ts, (alookup t topicTypes).isSome) :
    gatherManagerAux topicTypes triad ts
      = some ((ts.any (fun t => alookup t topicTypes == some "bond/Status")) && triad) := by
  induction ts with
  | nil => simp [gatherManagerAux]
  | cons t rest ih =>
      obtain ⟨ty, hty⟩ := Option.isSome_iff_exists.mp (h t (by simp))
      by_cases hb : ty = "bond/Status"
      · subst hb
        simp [gatherManagerAux, hty]
      · have ihr := ih (fun x hx => h x (by simp [hx]))
        have hbeq : (ty == "bond/Status") = false := by simp [hb]
        simp [gatherManagerAux, hty, hb, ihr, hbeq]

/-- C5 (amended): a node is classified a nodelet manager exactly when at
least one of its recorded topics (published or subscribed) has type
bond/Status and its provided-service types include all three of the
nodelet list/load/unload services. -/
theorem nodelet_manager_classification (nb : NodeBuilderState)
    (h : ∀ t ∈ nb.allTopicNames, (alookup t nb.topicNamesToTypes).isSome) :
    gatherNodeletManagerStatus nb
      = some (hasBondStatusTopic nb && hasNodeletServiceTriad nb) := by
  unfold gatherNodeletManagerStatus hasBondStatusTopic
  exact gatherManagerAux_eq nb.topicNamesToTypes (hasNodeletServiceTriad nb) nb.allTopicNames h

/-- Witness for the amended C5 on a concrete publishing manager node. -/
theorem nodelet_manager_classification_witness :
    gatherNodeletManagerStatus
      { publishedTopicNames := ["/m/bond"]
        subscribedTopicNames := []
        allTopicNames := ["/m/bond"]
        topicNamesToTypes := [("/m/bond", "bond/Status")]
        serviceNamesToTypes :=
          [("/m/list", "nodelet/NodeletList"),
           ("/m/load", "nodelet/NodeletLoad"),
           ("/m/unload", "nodelet/NodeletUnload")] }
      = some true :=
  have h := nodelet_manager_classification
    { publishedTopicNames := ["/m/bond"]
      subscribedTopicNames := []
      allTopicNames := ["/m/bond"]
      topicNamesToTypes := [("/m/bond", "bond/Status")]
      serviceNamesToTypes :=
        [("/m/list", "nodelet/NodeletList"),
         ("/m/load", "nodelet/NodeletLoad"),
         ("/m/unload", "nodelet/NodeletUnload")] }
    (by decide)
  by rw [h]; decide

/-- Folding topic links whose complete names are all already recorded
changes neither the name set nor the update flag. -/
theorem mergeTopicLinkStep_noop (names : List String) (l : List String) (flag : Bool)
    (h : ∀ n ∈ names, checkHarosNameIsComplete n = true → n ∈ l) :
    names.foldl mergeTopicLinkStep (l, flag) = (l, flag) := by
  induction names with
  | nil => rfl
  | cons n t ih =>
      have hstep : mergeTopicLinkStep (l, flag) n = (l, flag) := by
        by_cases hc : checkHarosNameIsComplete n = true
        · have hmem : n ∈ l := h n (by simp) hc
          simp [mergeTopicLinkStep, hc, hmem]
        · simp [mergeTopicLinkStep, hc]
      rw [List.foldl_cons, hstep]
      exact ih (fun x hx hcx => h x (by simp [hx]) hcx)

/-- C2: when the specification topic declares one type and the deployment
entity already carries a different type for the same name, the merge keeps
the deployment type, logs the conflict, and — the embedding being a total
function, mirroring straight-line source with no raise — never raises;
when additionally no publisher or subscriber link brings a new complete
node name, the deployment entity (including its version and provenance)
is returned completely unchanged. -/
theorem topic_merge_conflict_keeps_deployment (h : HarosTopic) (c : TopicEntity)
    (hne : some h.harosType ≠ c.constructType) :
    ((mergeHarosTopicFull h c).1.constructType = c.constructType
      ∧ (mergeHarosTopicFull h c).2 = true)
    ∧ ((∀ n ∈ h.publishers, checkHarosNameIsComplete n = true → n ∈ c.publisherNodeNames) →
        (∀ n ∈ h.subscribers, checkHarosNameIsComplete n = true → n ∈ c.subscriberNodeNames) →
        (mergeHarosTopicFull h c).1 = c) := by
  refine ⟨⟨?_, ?_⟩, ?_⟩
  · rfl
  · simp [mergeHarosTopicFull, helperMergeHarosTopic, bne_iff_ne, hne]
  · intro hp hs
    have hp1 : h.publishers.foldl mergeTopicLinkStep (c.publisherNodeNames, false)
        = (c.publisherNodeNames, false) := mergeTopicLinkStep_noop _ _ _ hp
    have hs1 : h.subscribers.foldl mergeTopicLinkStep (c.subscriberNodeNames, false)
        = (c.subscriberNodeNames, false) := mergeTopicLinkStep_noop _ _ _ hs
    have hlinks : mergeHarosTopicLinks h c = (c, false) := by
      simp [mergeHarosTopicLinks, hp1, hs1]
    simp [mergeHarosTopicFull, helperMergeHarosTopic, hlinks, updateChrisModelVersion]

/-- Witness for C2: specification type A/B against deployment type A/C on
an otherwise identical topic. -/
theorem topic_merge_conflict_keeps_deployment_witness :
    some "A/B" ≠ (some "A/C" : Option String)
    ∧ (mergeHarosTopicFull ⟨"A/B", ["/talker"], []⟩
        ⟨some "A/C", ["/talker"], [], 2, .svstr "ros_snapshot"⟩).1
      = ⟨some "A/C", ["/talker"], [], 2, .svstr "ros_snapshot"⟩
    ∧ (mergeHarosTopicFull ⟨"A/B", ["/talker"], []⟩
        ⟨some "A/C", ["/talker"], [], 2, .svstr "ros_snapshot"⟩).2 = true := by
  have h := topic_merge_conflict_keeps_deployment ⟨"A/B", ["/talker"], []⟩
    ⟨some "A/C", ["/talker"], [], 2, .svstr "ros_snapshot"⟩ (by decide)
  exact ⟨by decide, h.2 (by decide) (by decide), h.1.2⟩

/-- A fold whose step keeps the flag true once set keeps it true. -/
theorem foldl_flag_stays_true {σ α : Type} (step : σ × Bool → α → σ × Bool)
    (hmono : ∀ acc x, acc.2 = true → (step acc x).2 = true) (links : List α) :
    ∀ acc : σ × Bool, acc.2 = true → (links.foldl step acc).2 = true := by
  induction links with
  | nil => intro acc hacc; simpa using hacc
  | cons x t ih => intro acc hacc; exact ih (step acc x) (hmono acc x hacc)

/-- A fold whose step either leaves the state alone or raises the flag,
and which never lowers the flag, is the identity whenever the final flag
is false. -/
theorem foldl_flag_false_noop {σ α : Type} (step : σ × Bool → α → σ × Bool)
    (hstep : ∀ acc x, step acc x = acc ∨ (step acc x).2 = true)
    (hmono : ∀ acc x, acc.2 = true → (step acc x).2 = true) (links : List α) :
    ∀ acc : σ × Bool, (links.foldl step acc).2 = false → links.foldl step acc = acc := by
  induction links with
  | nil => intro acc _; rfl
  | cons x t ih =>
      intro acc hfin
      rcases hstep acc x with heq | htrue
      · rw [List.foldl_cons, heq] at hfin ⊢
        exact ih acc hfin
      · exfalso
        have := foldl_flag_stays_true step hmono t (step acc x) htrue
        rw [List.foldl_cons] at hfin
        rw [this] at hfin
        cases hfin

/-- The service / parameter link step changes nothing or raises the flag. -/
theorem mergeDictLinkStep_cases (acc : List (String × String) × Bool) (link : String × String) :
    mergeDictLinkStep acc link = acc ∨ (mergeDictLinkStep acc link).2 = true := by
  unfold mergeDictLinkStep
  split_ifs <;> simp

/-- The service / parameter link step never lowers the flag. -/
theorem mergeDictLinkStep_mono (acc : List (String × String) × Bool) (link : String × String)
    (h : acc.2 = true) : (mergeDictLinkStep acc link).2 = true := by
  unfold mergeDictLinkStep
  split_ifs <;> simp [h]

/-- The topic link step changes nothing or raises the flag. -/
theorem mergeTopicNodeLinkStep_cases (actionBank : List (String × List String))
    (acc : List (String × String) × Bool) (link : String × String) :
    mergeTopicNodeLinkStep actionBank acc link = acc
      ∨ (mergeTopicNodeLinkStep actionBank acc link).2 = true := by
  unfold mergeTopicNodeLinkStep
  split_ifs <;> simp

/-- The topic link step never lowers the flag. -/
theorem mergeTopicNodeLinkStep_mono (actionBank : List (String × List String))
    (acc : List (String × String) × Bool) (link : String × String)
    (h : acc.2 = true) : (mergeTopicNodeLinkStep actionBank acc link).2 = true := by
  unfold mergeTopicNodeLinkStep
  split_ifs <;> simp [h]

/-- Elements produced by `dedupAux` never come from the seen set. -/
theorem dedupAux_not_mem_seen :
    ∀ (xs seen : List String) (y : String), y ∈ dedupAux seen xs → y ∉ seen := by
  intro xs
  induction xs with
  | nil => intro seen y hy; simp [dedupAux] at hy
  | cons x t ih =>
      intro seen y hy
      by_cases hc : x ∈ seen
      · exact ih seen y (by simpa [dedupAux, hc] using hy)
      · simp [dedupAux, hc] at hy
        rcases hy with hy | hy
        · subst hy
          exact hc
        · have := ih (x :: seen) y hy
          intro hmem
          exact this (by simp [hmem])

/-- `dedupAux` produces a duplicate-free list. -/
theorem dedupAux_nodup : ∀ (xs seen : List String), (dedupAux seen xs).Nodup := by
  intro xs
  induction xs with
  | nil => intro seen; simp [dedupAux]
  | cons x t ih =>
      intro seen
      by_cases hc : x ∈ seen
      · simpa [dedupAux, hc] using ih seen
      · have hx : x ∉ dedupAux (x :: seen) t := by
          intro hmem
          exact dedupAux_not_mem_seen t (x :: seen) x hmem (by simp)
        simpa [dedupAux, hc] using ⟨hx, ih (x :: seen)⟩

/-- Membership in `dedupAux`. -/
theorem dedupAux_mem :
    ∀ (xs seen : List String) (y : String),
      y ∈ dedupAux seen xs ↔ (y ∈ xs ∧ y ∉ seen) := by
  intro xs
  induction xs with
  | nil => intro seen y; simp [dedupAux]
  | cons x t ih =>
      intro seen y
      by_cases hc : x ∈ seen
      · rw [show dedupAux seen (x :: t) = dedupAux seen t by simp [dedupAux, hc]]
        rw [ih seen y]
        constructor
        · rintro ⟨hy, hns⟩
          exact ⟨by simp [hy], hns⟩
        · rintro ⟨hy, hns⟩
          rcases List.mem_cons.mp hy with hy | hy
          · subst hy; exact absurd hc hns
          · exact ⟨hy, hns⟩
      · rw [show dedupAux seen (x :: t) = x :: dedupAux (x :: seen) t by simp [dedupAux, hc]]
        simp only [List.mem_cons, ih (x :: seen) y]
        constructor
        · rintro (hy | ⟨hy, hns⟩)
          · subst hy
            exact ⟨Or.inl rfl, hc⟩
          · exact ⟨Or.inr hy, fun hmem => hns (by simp [hmem])⟩
        · rintro ⟨hy | hy, hns⟩
          · exact Or.inl hy
          · by_cases hyx : y = x
            · exact Or.inl hyx
            · exact Or.inr ⟨hy, by simp [hyx, hns]⟩

/-- Counting is unchanged by sorted insertion. -/
theorem count_insertSorted (a x : String) (l : List String) :
    (insertSorted x l).count a = (x :: l).count a := by
  induction l with
  | nil => rfl
  | cons y t ih =>
      by_cases hle : strLeB x y
      · simp [insertSorted, hle]
      · rw [show insertSorted x (y :: t) = y :: insertSorted x t by simp [insertSorted, hle]]
        rw [List.count_cons, List.count_cons, ih, List.count_cons, List.count_cons]
        omega

/-- Counting is unchanged by `pySorted`. -/
theorem count_pySorted (a : String) (l : List String) :
    (pySorted l).count a = l.count a := by
  induction l with
  | nil => rfl
  | cons x t ih =>
      rw [pySorted, count_insertSorted, List.count_cons, List.count_cons, ih]

/-- The remodeler tag appears exactly once in the rebuilt source tokens. -/
theorem count_tag_mergedSourceTokens (xs : List String) :
    (mergedSourceTokens xs).count remodelerSourceName = 1 := by
  unfold mergedSourceTokens pySetList
  rw [count_pySorted]
  have hnd : (dedupAux [] (xs ++ [remodelerSourceName])).Nodup := dedupAux_nodup _ _
  have hmem : remodelerSourceName ∈ dedupAux [] (xs ++ [remodelerSourceName]) := by
    rw [dedupAux_mem]
    simp
  exact List.count_eq_one_of_mem hnd hmem

/-- If the node merge helper reports no update, it changed nothing. -/
theorem helperMergeNode_false_eq (ab : List (String × List String)) (h : HarosNode)
    (c : NodeEntity) (hf : (helperMergeNode ab h c).2 = false) :
    (helperMergeNode ab h c).1 = c := by
  unfold helperMergeNode at hf ⊢
  simp only [Bool.or_eq_false_iff] at hf
  obtain ⟨⟨⟨⟨⟨⟨⟨⟨h1, h2⟩, h3⟩, h4⟩, h5⟩, h6⟩, h7⟩, h8⟩, h9⟩ := hf
  by_cases ht1 : pyTruthyStr c.node
  swap
  · simp [ht1] at h1
  by_cases ht2 : pyTruthyList c.cmdline
  swap
  · simp [ht2] at h2
  cases hl : h.launch with
  | some p => simp [hl] at h3
  | none =>
  simp only [ht1, ht2, hl, if_true] at h1 h2 h3 h4 h5 h6 h7 h8 h9 ⊢
  have e4 : mergeHarosLinksIntoDict h.writes c.setParameterNames
      = (c.setParameterNames, false) :=
    foldl_flag_false_noop mergeDictLinkStep mergeDictLinkStep_cases
      mergeDictLinkStep_mono h.writes (c.setParameterNames, false) h4
  have e5 : mergeHarosLinksIntoDict h.reads c.readParameterNames
      = (c.readParameterNames, false) :=
    foldl_flag_false_noop mergeDictLinkStep mergeDictLinkStep_cases
      mergeDictLinkStep_mono h.reads (c.readParameterNames, false) h5
  have e6 : mergeHarosLinksIntoDict h.servers c.providedServices
      = (c.providedServices, false) :=
    foldl_flag_false_noop mergeDictLinkStep mergeDictLinkStep_cases
      mergeDictLinkStep_mono h.servers (c.providedServices, false) h6
  have e8 : mergeHarosNodeTopics ab h.publishers c.publishedTopicNames
      = (c.publishedTopicNames, false) :=
    foldl_flag_false_noop (mergeTopicNodeLinkStep ab)
      (mergeTopicNodeLinkStep_cases ab) (mergeTopicNodeLinkStep_mono ab)
      h.publishers (c.publishedTopicNames, false) h8
  have e9 : mergeHarosNodeTopics ab h.subscribers c.subscribedTopicNames
      = (c.subscribedTopicNames, false) :=
    foldl_flag_false_noop (mergeTopicNodeLinkStep ab)
      (mergeTopicNodeLinkStep_cases ab) (mergeTopicNodeLinkStep_mono ab)
      h.subscribers (c.subscribedTopicNames, false) h9
  by_cases hcl : (mergeHarosLinksIntoDict h.clients []).2
  · simp [hcl] at h7
  · simp [e4, e5, e6, e8, e9, hcl]

/-- C1: the claim fails on the node merger: merging a specification node
that carries a launch file equal to the deployment value (and nothing
else new) changes no field, yet the version is incremented and the
provenance rewritten. -/
theorem node_merge_version_counterexample :
    (helperMergeNode [] launchOnlyHarosNode launchOnlyChrisNode).1 = launchOnlyChrisNode
    ∧ (mergeHarosNodeFull [] launchOnlyHarosNode launchOnlyChrisNode).version = 4
    ∧ launchOnlyChrisNode.version = 3
    ∧ (mergeHarosNodeFull [] launchOnlyHarosNode launchOnlyChrisNode).source
      = .svstr "haros_chris_model_merger, ros_snapshot" := by
  refine ⟨by decide, by decide, by decide, by decide⟩

/-- C1 (amended): a node merge call that reports no update leaves the
entity, its version and its provenance untouched; a merge that changes at
least one field always reports an update; and a merge that reports an
update (which, as the counterexample shows, can also happen with no field
change, e.g. whenever the specification side carries a launch file)
increments the version by exactly 1 and rebuilds the provenance as a
deduplicated token set carrying the remodeler tag exactly once, so repeat
merges never duplicate the tag. -/
theorem node_merge_version_provenance (ab : List (String × List String)) (h : HarosNode)
    (c : NodeEntity) :
    ((helperMergeNode ab h c).2 = false → mergeHarosNodeFull ab h c = c)
    ∧ ((helperMergeNode ab h c).1 ≠ c → (helperMergeNode ab h c).2 = true)
    ∧ ((helperMergeNode ab h c).2 = true →
        (mergeHarosNodeFull ab h c).version = c.version + 1
        ∧ (∀ xs, c.source = .svlist xs →
            ∃ ws, (mergeHarosNodeFull ab h c).source = .svlist ws
              ∧ ws.count remodelerSourceName = 1)
        ∧ (∀ s, c.source = .svstr s →
            ∃ ws, (mergeHarosNodeFull ab h c).source = .svstr (pyJoin ", " ws)
              ∧ ws.count remodelerSourceName = 1)) := by
  have hexp : mergeHarosNodeFull ab h c
      = { (helperMergeNode ab h c).1 with
          version := (updateChrisModelVersion c.version c.source (helperMergeNode ab h c).2).1,
          source := (updateChrisModelVersion c.version c.source (helperMergeNode ab h c).2).2 } :=
    rfl
  refine ⟨?_, ?_, ?_⟩
  · intro hf
    have he := helperMergeNode_false_eq ab h c hf
    rw [hf] at hexp
    rw [hexp, he]
    simp [updateChrisModelVersion]
  · intro hne
    by_contra hf
    exact hne (helperMergeNode_false_eq ab h c (by simpa using hf))
  · intro ht
    rw [ht] at hexp
    refine ⟨?_, ?_, ?_⟩
    · rw [hexp]
      cases hs : c.source <;> simp [updateChrisModelVersion]
    · intro xs hxs
      rw [hexp, hxs]
      exact ⟨mergedSourceTokens xs, by simp [updateChrisModelVersion],
        count_tag_mergedSourceTokens xs⟩
    · intro s hs
      rw [hexp, hs]
      exact ⟨mergedSourceTokens ((pySplitChar ',' s).map pyStrip),
        by simp [updateChrisModelVersion], count_tag_mergedSourceTokens _⟩

/-- Witness for the amended C1: the launch-file merge reports an update,
the version is incremented by exactly one and the rebuilt provenance
holds the remodeler tag exactly once. -/
theorem node_merge_version_provenance_witness :
    (helperMergeNode [] launchOnlyHarosNode launchOnlyChrisNode).2 = true
    ∧ (mergeHarosNodeFull [] launchOnlyHarosNode launchOnlyChrisNode).version
      = launchOnlyChrisNode.version + 1
    ∧ (∃ ws, (mergeHarosNodeFull [] launchOnlyHarosNode launchOnlyChrisNode).source
        = .svstr (pyJoin ", " ws) ∧ ws.count remodelerSourceName = 1) :=
  have hmain := node_merge_version_provenance [] launchOnlyHarosNode launchOnlyChrisNode
  have ht : (helperMergeNode [] launchOnlyHarosNode launchOnlyChrisNode).2 = true := by decide
  ⟨ht, (hmain.2.2 ht).1, (hmain.2.2 ht).2.2 "ros_snapshot" (by decide)⟩

/-- C3: on the literal five-topic cluster the extraction produces exactly
one action, named /r/move, whose construct type resolves to pkg/Move, and
removes all five topics from the topic bank. -/
theorem action_promotion_scenario :
    (extractActionBuilders promotionScenarioBank).1.map Prod.fst = ["/r/move"]
    ∧ (extractActionBuilders promotionScenarioBank).1.map
        (fun p => (extractActionConstructType p.2).toOption) = [some "pkg/Move"]
    ∧ (extractActionBuilders promotionScenarioBank).2 = [] := by
  refine ⟨by decide, by decide, by decide⟩

/-- C4: on the cluster whose result type has a different stem the source
still validates and promotes the action (all five topics are removed from
the bank) and the later construct-type extraction raises (error), where
the claim expects no action, untouched topics and no exception. -/
theorem action_rejection_divergence :
    (extractActionBuilders rejectionScenarioBank).1.all
      (fun p => validateActionTopicBuilders p.2) = true
    ∧ (extractActionBuilders rejectionScenarioBank).1.map Prod.fst = ["/r/move"]
    ∧ (extractActionBuilders rejectionScenarioBank).2 = []
    ∧ (extractActionBuilders rejectionScenarioBank).1.map
        (fun p => (extractActionConstructType p.2).toOption) = [none] := by
  refine ⟨by decide, by decide, by decide, by decide⟩

/-- `lookupKey` after a dict assignment. -/
theorem lookupKey_pyDictSetG {β : Type} (k k2 : String) (v : β) (d : List (String × β)) :
    lookupKey k2 (pyDictSetG k v d) = if k2 = k then some v else lookupKey k2 d := by
  induction d with
  | nil =>
      by_cases hk : k2 = k
      · simp [pyDictSetG, lookupKey, hk]
      · simp [pyDictSetG, lookupKey, hk, Ne.symm hk]
  | cons p t ih =>
      obtain ⟨a, b⟩ := p
      by_cases hak : a = k
      · subst hak
        by_cases hk : k2 = a
        · simp [pyDictSetG, lookupKey, hk]
        · simp [pyDictSetG, lookupKey, hk, Ne.symm hk]
      · by_cases hk2 : a = k2
        · subst hk2
          simp [pyDictSetG, lookupKey, hak, Ne.symm hak]
        · simp [pyDictSetG, lookupKey, hak, hk2, ih]

/-- Lookup distributes over append when the key misses the first part. -/
theorem lookupKey_append_of_none {β : Type} (k : String) (d1 d2 : List (String × β))
    (h : lookupKey k d1 = none) : lookupKey k (d1 ++ d2) = lookupKey k d2 := by
  induction d1 with
  | nil => rfl
  | cons p t ih =>
      obtain ⟨a, b⟩ := p
      by_cases hak : a = k
      · simp [lookupKey, hak] at h
      · simp [lookupKey, hak] at h ⊢
        exact ih h

/-- Lookup distributes over append when the key hits the first part. -/
theorem lookupKey_append_of_some {β : Type} (k : String) (v : β) (d1 d2 : List (String × β))
    (h : lookupKey k d1 = some v) : lookupKey k (d1 ++ d2) = some v := by
  induction d1 with
  | nil => simp [lookupKey] at h
  | cons p t ih =>
      obtain ⟨a, b⟩ := p
      by_cases hak : a = k
      · simp [lookupKey, hak] at h ⊢
        exact h
      · simp [lookupKey, hak] at h ⊢
        exact ih h

/-- A missing key means the key is not among the dict keys. -/
theorem lookupKey_none_iff {β : Type} (k : String) (d : List (String × β)) :
    lookupKey k d = none ↔ k ∉ d.map Prod.fst := by
  induction d with
  | nil => simp [lookupKey]
  | cons p t ih =>
      obtain ⟨a, b⟩ := p
      by_cases hak : a = k
      · simp [lookupKey, hak]
      · simp [lookupKey, hak, ih, Ne.symm hak]

/-- Assigning an existing key leaves the key list untouched. -/
theorem pyDictSetG_map_fst {β : Type} (k : String) (v : β) (d : List (String × β))
    (h : (lookupKey k d).isSome) : (pyDictSetG k v d).map Prod.fst = d.map Prod.fst := by
  induction d with
  | nil => simp [lookupKey] at h
  | cons p t ih =>
      obtain ⟨a, b⟩ := p
      by_cases hak : a = k
      · simp [pyDictSetG, hak]
      · simp [lookupKey, hak] at h
        simp [pyDictSetG, hak, ih h]

/-- Incrementing a count changes exactly that key count by one. -/
theorem countOf_addOrIncrement (counts : List (String × Nat)) (key n : String) :
    countOf (addOrIncrementDictionaryCount counts key) n
      = countOf counts n + (if n = key then 1 else 0) := by
  unfold addOrIncrementDictionaryCount
  cases h : lookupKey key counts with
  | none =>
      by_cases hn : n = key
      · subst hn
        unfold countOf
        rw [lookupKey_append_of_none _ _ _ h, h]
        simp [lookupKey]
      · unfold countOf
        cases h2 : lookupKey n counts with
        | none =>
            rw [lookupKey_append_of_none _ _ _ h2]
            simp [lookupKey, hn, Ne.symm hn]
        | some m =>
            rw [lookupKey_append_of_some _ _ _ _ h2]
            simp [hn]
  | some m =>
      unfold countOf
      rw [lookupKey_pyDictSetG]
      by_cases hn : n = key
      · subst hn
        simp [h]
      · simp [hn]

/-- Folding a node list into the counts adds each occurrence. -/
theorem countOf_foldNodes (nodes : List String) :
    ∀ (counts : List (String × Nat)) (n : String),
      countOf (nodes.foldl addOrIncrementDictionaryCount counts) n
        = countOf counts n + nodes.count n := by
  induction nodes with
  | nil => intro counts n; simp
  | cons x t ih =>
      intro counts n
      rw [List.foldl_cons, ih, countOf_addOrIncrement, List.count_cons]
      by_cases hx : n = x
      · simp [hx]
        omega
      · have hx2 : (x == n) = false := by simp [Ne.symm hx]
        simp [hx, hx2]

/-- Counting over a suffix family succeeds exactly when every suffix has
its topic builder. -/
theorem countBySuffixes_isSome_iff (suffixMap : List (String × TopicB)) (up : Bool)
    (suffixes : List String) :
    ∀ counts, (countBySuffixes suffixMap up suffixes counts).isSome
      ↔ ∀ s ∈ suffixes, (lookupKey s suffixMap).isSome := by
  induction suffixes with
  | nil => intro counts; simp [countBySuffixes]
  | cons s rest ih =>
      intro counts
      cases h : lookupKey s suffixMap with
      | none => simp [countBySuffixes, h]
      | some tb => simp [countBySuffixes, h, ih]

/-- A successful suffix-family count adds exactly the per-suffix
occurrence counts. -/
theorem countBySuffixes_countOf (suffixMap : List (String × TopicB)) (up : Bool)
    (suffixes : List String) :
    ∀ counts r, countBySuffixes suffixMap up suffixes counts = some r →
      ∀ n, countOf r n = countOf counts n + appearancesOver suffixMap up suffixes n := by
  induction suffixes with
  | nil =>
      intro counts r h n
      simp [countBySuffixes] at h
      subst h
      simp [appearancesOver]
  | cons s rest ih =>
      intro counts r h n
      cases hl : lookupKey s suffixMap with
      | none => simp [countBySuffixes, hl] at h
      | some tb =>
          simp only [countBySuffixes, hl] at h
          rw [ih _ r h n, countOf_foldNodes]
          simp only [appearancesOver, hl]
          omega

/-- Incrementing preserves duplicate-free keys. -/
theorem addOrIncrement_keys_nodup (counts : List (String × Nat)) (key : String)
    (h : (counts.map Prod.fst).Nodup) :
    ((addOrIncrementDictionaryCount counts key).map Prod.fst).Nodup := by
  unfold addOrIncrementDictionaryCount
  cases hl : lookupKey key counts with
  | none =>
      have hkm : key ∉ counts.map Prod.fst := (lookupKey_none_iff key counts).mp hl
      simp [List.nodup_append, h, hkm]
  | some m =>
      rw [pyDictSetG_map_fst _ _ _ (by simp [hl])]
      exact h

/-- Folding a node list preserves duplicate-free keys. -/
theorem foldNodes_keys_nodup (nodes : List String) :
    ∀ counts : List (String × Nat), (counts.map Prod.fst).Nodup →
      (((nodes.foldl addOrIncrementDictionaryCount counts)).map Prod.fst).Nodup := by
  induction nodes with
  | nil => intro counts h; simpa using h
  | cons x t ih =>
      intro counts h
      exact ih _ (addOrIncrement_keys_nodup counts x h)

/-- Suffix-family counting preserves duplicate-free keys. -/
theorem countBySuffixes_keys_nodup (suffixMap : List (String × TopicB)) (up : Bool)
    (suffixes : List String) :
    ∀ counts r, (counts.map Prod.fst).Nodup →
      countBySuffixes suffixMap up suffixes counts = some r →
      (r.map Prod.fst).Nodup := by
  induction suffixes with
  | nil =>
      intro counts r h heq
      simp [countBySuffixes] at heq
      subst heq
      exact h
  | cons s rest ih =>
      intro counts r h heq
      cases hl : lookupKey s suffixMap with
      | none => simp [countBySuffixes, hl] at heq
      | some tb =>
          simp only [countBySuffixes, hl] at heq
          exact ih _ r (foldNodes_keys_nodup _ _ h) heq

/-- With duplicate-free keys, membership in the filtered key list is
exactly a lookup hit satisfying the filter. -/
theorem mem_filter_fst (pred : Nat → Bool) (n : String) :
    ∀ counts : List (String × Nat), (counts.map Prod.fst).Nodup →
      ((n ∈ (counts.filter (fun p => pred p.2)).map Prod.fst)
        ↔ ∃ k, lookupKey n counts = some k ∧ pred k = true) := by
  intro counts
  induction counts with
  | nil => intro _; simp [lookupKey]
  | cons p t ih =>
      intro hnd
      obtain ⟨a, b⟩ := p
      simp only [List.map_cons, List.nodup_cons] at hnd
      obtain ⟨hna, hnd2⟩ := hnd
      by_cases hn : a = n
      · subst hn
        by_cases hp : pred b
        · simp [List.filter_cons, hp, lookupKey]
        · simp only [List.filter_cons, hp, if_neg hp, lookupKey, if_pos rfl]
          constructor
          · intro hmem
            exfalso
            apply hna
            obtain ⟨q, hq, hfst⟩ := List.mem_map.mp hmem
            exact List.mem_map.mpr ⟨q, List.mem_of_mem_filter hq, hfst⟩
          · rintro ⟨k, hk, hpk⟩
            injection hk with hk
            subst hk
            simp [hpk] at hp
      · have hlk : lookupKey n ((a, b) :: t) = lookupKey n t := by
          simp [lookupKey, hn]
        by_cases hp : pred b
        · simp only [List.filter_cons, if_pos hp, List.map_cons, List.mem_cons, hlk]
          rw [ih hnd2]
          constructor
          · rintro (heq | hex)
            · exact absurd heq.symm hn
            · exact hex
          · intro hex
            exact Or.inr hex
        · simp only [List.filter_cons, if_neg hp, hlk]
          exact ih hnd2

/-- A counts dict built by one client- or server-side pass has
duplicate-free keys and realises the appearance count. -/
theorem countActionNodeAppearances_spec (suffixMap : List (String × TopicB))
    (ps ss : List String)
    (hp : ∀ s ∈ ps, (lookupKey s suffixMap).isSome)
    (hs : ∀ s ∈ ss, (lookupKey s suffixMap).isSome) :
    ∃ cc, countActionNodeAppearances suffixMap ps ss = some cc
      ∧ (cc.map Prod.fst).Nodup
      ∧ ∀ n, countOf cc n
          = appearancesOver suffixMap true ps n + appearancesOver suffixMap false ss n := by
  obtain ⟨c1, hc1⟩ := Option.isSome_iff_exists.mp
    ((countBySuffixes_isSome_iff suffixMap true ps []).mpr hp)
  obtain ⟨cc, hcc⟩ := Option.isSome_iff_exists.mp
    ((countBySuffixes_isSome_iff suffixMap false ss c1).mpr hs)
  refine ⟨cc, ?_, ?_, ?_⟩
  · unfold countActionNodeAppearances
    rw [hc1]
    exact hcc
  · exact countBySuffixes_keys_nodup suffixMap false ss c1 cc
      (countBySuffixes_keys_nodup suffixMap true ps [] c1 (by simp) hc1) hcc
  · intro n
    have h1 := countBySuffixes_countOf suffixMap true ps [] c1 hc1 n
    have h2 := countBySuffixes_countOf suffixMap false ss c1 cc hcc n
    have h0 : countOf ([] : List (String × Nat)) n = 0 := rfl
    omega

/-- Membership in the exactly-five list of a duplicate-free counts dict
is having count exactly `numTopicSuffixes`; a positive count different
from it lands in the rejection log instead. -/
theorem gatherValid_spec (cc : List (String × Nat)) (hnd : (cc.map Prod.fst).Nodup)
    (n : String) :
    ((n ∈ (gatherValidActionNodeNames cc).1 ↔ countOf cc n = numTopicSuffixes)
      ∧ (0 < countOf cc n → countOf cc n ≠ numTopicSuffixes →
          n ∉ (gatherValidActionNodeNames cc).1 ∧ n ∈ (gatherValidActionNodeNames cc).2)) := by
  have hmem1 := mem_filter_fst (fun k => k = numTopicSuffixes) n cc hnd
  have hmem2 := mem_filter_fst (fun k => k ≠ numTopicSuffixes) n cc hnd
  have hiff : n ∈ (gatherValidActionNodeNames cc).1 ↔ countOf cc n = numTopicSuffixes := by
    unfold gatherValidActionNodeNames
    rw [show ((cc.filter (fun p => p.2 = numTopicSuffixes)).map Prod.fst, (cc.filter (fun p => p.2 ≠ numTopicSuffixes)).map Prod.fst).1 = (cc.filter (fun p => decide (p.2 = numTopicSuffixes))).map Prod.fst from rfl]
    rw [hmem1]
    constructor
    · rintro ⟨k, hk, hpk⟩
      simp at hpk
      subst hpk
      simp [countOf, hk]
    · intro hcnt
      cases hl : lookupKey n cc with
      | none =>
          exfalso
          have : countOf cc n = 0 := by simp [countOf, hl]
          rw [this] at hcnt
          exact (by decide : numTopicSuffixes ≠ 0) hcnt.symm
      | some k =>
          refine ⟨k, rfl, ?_⟩
          have : countOf cc n = k := by simp [countOf, hl]
          simp [← this, hcnt]
  refine ⟨hiff, ?_⟩
  intro hpos hne
  constructor
  · intro hmem
    exact hne (hiff.mp hmem)
  · unfold gatherValidActionNodeNames
    rw [show ((cc.filter (fun p => p.2 = numTopicSuffixes)).map Prod.fst, (cc.filter (fun p => p.2 ≠ numTopicSuffixes)).map Prod.fst).2 = (cc.filter (fun p => decide (p.2 ≠ numTopicSuffixes))).map Prod.fst from rfl]
    rw [hmem2]
    cases hl : lookupKey n cc with
    | none =>
        exfalso
        have : countOf cc n = 0 := by simp [countOf, hl]
        omega
    | some k =>
        have : countOf cc n = k := by simp [countOf, hl]
        refine ⟨k, rfl, ?_⟩
        simp [← this, hne]

/-- C6: for an action holding all five suffix topics, a node is recorded
as action client (or server) exactly when its appearance count over the
five suffix-appropriate topics in the correct publish/subscribe direction
equals `numTopicSuffixes` (five); every node with a positive count not
equal to five is rejected into the log and not added. -/
theorem action_role_exactly_five (ab : ActionB)
    (hpresent : ∀ s ∈ topicSuffixes, (lookupKey s ab.topicNameSuffixesToBuilders).isSome) :
    ∃ vc rc vs rs,
      gatherActionClientAndServerNames ab = some ((vc, rc), (vs, rs))
      ∧ (∀ n, n ∈ vc ↔ clientAppearances ab.topicNameSuffixesToBuilders n = numTopicSuffixes)
      ∧ (∀ n, 0 < clientAppearances ab.topicNameSuffixesToBuilders n →
          clientAppearances ab.topicNameSuffixesToBuilders n ≠ numTopicSuffixes →
          n ∉ vc ∧ n ∈ rc)
      ∧ (∀ n, n ∈ vs ↔ serverAppearances ab.topicNameSuffixesToBuilders n = numTopicSuffixes)
      ∧ (∀ n, 0 < serverAppearances ab.topicNameSuffixesToBuilders n →
          serverAppearances ab.topicNameSuffixesToBuilders n ≠ numTopicSuffixes →
          n ∉ vs ∧ n ∈ rs) := by
  have hcp : ∀ s ∈ clientPublishedTopicSuffixes,
      (lookupKey s ab.topicNameSuffixesToBuilders).isSome := by
    intro s hsm
    exact hpresent s (by simp [topicSuffixes, hsm])
  have hsp : ∀ s ∈ serverPublishedTopicSuffixes,
      (lookupKey s ab.topicNameSuffixesToBuilders).isSome := by
    intro s hsm
    exact hpresent s (by simp [topicSuffixes, hsm])
  obtain ⟨cc, hccEq, hccNd, hccCnt⟩ :=
    countActionNodeAppearances_spec ab.topicNameSuffixesToBuilders
      clientPublishedTopicSuffixes serverPublishedTopicSuffixes hcp hsp
  obtain ⟨sc, hscEq, hscNd, hscCnt⟩ :=
    countActionNodeAppearances_spec ab.topicNameSuffixesToBuilders
      serverPublishedTopicSuffixes clientPublishedTopicSuffixes hsp hcp
  refine ⟨(gatherValidActionNodeNames cc).1, (gatherValidActionNodeNames cc).2,
    (gatherValidActionNodeNames sc).1, (gatherValidActionNodeNames sc).2, ?_, ?_, ?_, ?_, ?_⟩
  · unfold gatherActionClientAndServerNames
    rw [hccEq, hscEq]
  · intro n
    have := (gatherValid_spec cc hccNd n).1
    rw [this, hccCnt n]
    rfl
  · intro n hpos hne
    have hc : countOf cc n = clientAppearances ab.topicNameSuffixesToBuilders n := hccCnt n
    exact (gatherValid_spec cc hccNd n).2 (by rw [hc]; exact hpos) (by rw [hc]; exact hne)
  · intro n
    have := (gatherValid_spec sc hscNd n).1
    rw [this, hscCnt n]
    rfl
  · intro n hpos hne
    have hc : countOf sc n = serverAppearances ab.topicNameSuffixesToBuilders n := hscCnt n
    exact (gatherValid_spec sc hscNd n).2 (by rw [hc]; exact hpos) (by rw [hc]; exact hne)

/-- Witness for C6 on the concrete five-suffix action: node /c is a full
client (count 5) and node /p, appearing only on the goal topic, is
rejected. -/
theorem action_role_exactly_five_witness :
    (∀ s ∈ topicSuffixes, (lookupKey s fiveTopicAction.topicNameSuffixesToBuilders).isSome)
    ∧ ∃ vc rc vs rs,
        gatherActionClientAndServerNames fiveTopicAction = some ((vc, rc), (vs, rs))
        ∧ (∀ n, n ∈ vc
            ↔ clientAppearances fiveTopicAction.topicNameSuffixesToBuilders n = numTopicSuffixes)
        ∧ (∀ n, 0 < clientAppearances fiveTopicAction.topicNameSuffixesToBuilders n →
            clientAppearances fiveTopicAction.topicNameSuffixesToBuilders n ≠ numTopicSuffixes →
            n ∉ vc ∧ n ∈ rc)
        ∧ (∀ n, n ∈ vs
            ↔ serverAppearances fiveTopicAction.topicNameSuffixesToBuilders n = numTopicSuffixes)
        ∧ (∀ n, 0 < serverAppearances fiveTopicAction.topicNameSuffixesToBuilders n →
            serverAppearances fiveTopicAction.topicNameSuffixesToBuilders n ≠ numTopicSuffixes →
            n ∉ vs ∧ n ∈ rs) :=
  ⟨by decide, action_role_exactly_five fiveTopicAction (by decide)⟩

/-- One role-counting pass succeeds exactly when both its suffix families
resolve. -/
theorem countActionNodeAppearances_isSome_iff (suffixMap : List (String × TopicB))
    (ps ss : List String) :
    (countActionNodeAppearances suffixMap ps ss).isSome
      ↔ (∀ s ∈ ps, (lookupKey s suffixMap).isSome)
        ∧ (∀ s ∈ ss, (lookupKey s suffixMap).isSome) := by
  unfold countActionNodeAppearances
  cases h1 : countBySuffixes suffixMap true ps [] with
  | none =>
      have := (countBySuffixes_isSome_iff suffixMap true ps [])
      rw [h1] at this
      simp only [Option.isSome_none, Bool.false_eq_true, false_iff] at this
      simp [this]
  | some c1 =>
      have hps := (countBySuffixes_isSome_iff suffixMap true ps [])
      rw [h1] at hps
      simp only [Option.isSome_some, true_iff] at hps
      rw [countBySuffixes_isSome_iff suffixMap false ss c1]
      constructor
      · intro h2
        exact ⟨hps, h2⟩
      · rintro ⟨_, h2⟩
        exact h2

/-- C9: gathering an action client and server names completes (returns a
value rather than hitting the unguarded suffix lookup) exactly when the
action holds a topic builder for every one of the five suffixes; in
particular a cluster that passes the at-least-3-suffixes qualification
while missing one of the five fails with the lookup error (none). -/
theorem gather_roles_needs_all_five_suffixes (ab : ActionB) :
    ((gatherActionClientAndServerNames ab).isSome
      ↔ ∀ s ∈ topicSuffixes, (lookupKey s ab.topicNameSuffixesToBuilders).isSome)
    ∧ (validateTopicBuildersHaveRequiredSuffixes
          (ab.topicNamesToBuilders.map Prod.snd) = true →
        (∃ s ∈ topicSuffixes, lookupKey s ab.topicNameSuffixesToBuilders = none) →
        gatherActionClientAndServerNames ab = none) := by
  have hiff : (gatherActionClientAndServerNames ab).isSome
      ↔ ∀ s ∈ topicSuffixes, (lookupKey s ab.topicNameSuffixesToBuilders).isSome := by
    unfold gatherActionClientAndServerNames
    cases h1 : countActionNodeAppearances ab.topicNameSuffixesToBuilders
        clientPublishedTopicSuffixes serverPublishedTopicSuffixes with
    | none =>
        have := countActionNodeAppearances_isSome_iff ab.topicNameSuffixesToBuilders
          clientPublishedTopicSuffixes serverPublishedTopicSuffixes
        rw [h1] at this
        simp only [Option.isSome_none, Bool.false_eq_true, false_iff] at this
        simp only [Option.isSome_none, Bool.false_eq_true, false_iff]
        intro hall
        apply this
        constructor
        · intro s hsm
          exact hall s (by simp [topicSuffixes, hsm])
        · intro s hsm
          exact hall s (by simp [topicSuffixes, hsm])
    | some cc =>
        have h1s := countActionNodeAppearances_isSome_iff ab.topicNameSuffixesToBuilders
          clientPublishedTopicSuffixes serverPublishedTopicSuffixes
        rw [h1] at h1s
        simp only [Option.isSome_some, true_iff] at h1s
        cases h2 : countActionNodeAppearances ab.topicNameSuffixesToBuilders
            serverPublishedTopicSuffixes clientPublishedTopicSuffixes with
        | none =>
            have h2s := countActionNodeAppearances_isSome_iff ab.topicNameSuffixesToBuilders
              serverPublishedTopicSuffixes clientPublishedTopicSuffixes
            rw [h2] at h2s
            simp only [Option.isSome_none, Bool.false_eq_true, false_iff] at h2s
            simp only [Option.isSome_none, Bool.false_eq_true, false_iff]
            intro hall
            apply h2s
            constructor
            · intro s hsm
              exact hall s (by simp [topicSuffixes, hsm])
            · intro s hsm
              exact hall s (by simp [topicSuffixes, hsm])
        | some sc =>
            simp only [Option.isSome_some, true_iff]
            intro s hsm
            rcases List.mem_append.mp (by simpa [topicSuffixes] using hsm) with hm | hm
            · exact h1s.1 s hm
            · exact h1s.2 s hm
  refine ⟨hiff, ?_⟩
  intro _ hmissing
  obtain ⟨s, hsm, hnone⟩ := hmissing
  rw [← Option.not_isSome_iff_eq_none]
  intro hsome
  have := hiff.mp hsome s hsm
  rw [hnone] at this
  cases this

/-- Witness for C9: the three-suffix cluster passes the qualification
rule yet the role gathering hits the missing-suffix lookup and fails. -/
theorem gather_roles_needs_all_five_suffixes_witness :
    validateTopicBuildersHaveRequiredSuffixes
      (threeSuffixAction.topicNamesToBuilders.map Prod.snd) = true
    ∧ (∃ s ∈ topicSuffixes, lookupKey s threeSuffixAction.topicNameSuffixesToBuilders = none)
    ∧ gatherActionClientAndServerNames threeSuffixAction = none :=
  ⟨by decide, by decide,
    (gather_roles_needs_all_five_suffixes threeSuffixAction).2 (by decide) (by decide)⟩

/-- Lexicographic comparison is reflexive. -/
theorem charsLe_refl : ∀ as : List Char, charsLe as as = true := by
  intro as
  induction as with
  | nil => rfl
  | cons a t ih => simp [charsLe, ih]

/-- Lexicographic comparison is total. -/
theorem charsLe_total : ∀ as bs : List Char, charsLe as bs = true ∨ charsLe bs as = true := by
  intro as
  induction as with
  | nil => intro bs; left; rfl
  | cons a t ih =>
      intro bs
      cases bs with
      | nil => right; rfl
      | cons b u =>
          by_cases hab : a.toNat < b.toNat
          · left
            simp [charsLe, hab]
          · by_cases hba : b.toNat < a.toNat
            · right
              simp [charsLe, hba]
            · rcases ih u with h | h
              · left
                simp [charsLe, hab, hba, h]
              · right
                simp [charsLe, hab, hba, h]

/-- Lexicographic comparison is transitive. -/
theorem charsLe_trans : ∀ as bs cs : List Char,
    charsLe as bs = true → charsLe bs cs = true → charsLe as cs = true := by
  intro as
  induction as with
  | nil => intro bs cs _ _; rfl
  | cons a t ih =>
      intro bs cs h1 h2
      cases bs with
      | nil => simp [charsLe] at h1
      | cons b u =>
          cases cs with
          | nil => simp [charsLe] at h2
          | cons c v =>
              simp only [charsLe] at h1 h2 ⊢
              by_cases hab : a.toNat < b.toNat
              · by_cases hbc : b.toNat < c.toNat
                · simp [show a.toNat < c.toNat by omega]
                · by_cases hcb : c.toNat < b.toNat
                  · simp [hbc, hcb] at h2
                  · simp [show a.toNat < c.toNat by omega]
              · by_cases hba : b.toNat < a.toNat
                · simp [hab, hba] at h1
                · by_cases hbc : b.toNat < c.toNat
                  · simp [show a.toNat < c.toNat by omega]
                  · by_cases hcb : c.toNat < b.toNat
                    · simp [hbc, hcb] at h2
                    · have hac : ¬a.toNat < c.toNat := by omega
                      have hca : ¬c.toNat < a.toNat := by omega
                      simp only [hab, hba, if_false] at h1
                      simp only [hbc, hcb, if_false] at h2
                      simp only [hac, hca, if_false]
                      exact ih u v h1 h2

/-- String comparison is reflexive. -/
theorem strLeB_refl (a : String) : strLeB a a = true := charsLe_refl a.data

/-- String comparison is total. -/
theorem strLeB_total (a b : String) : strLeB a b = true ∨ strLeB b a = true :=
  charsLe_total a.data b.data

/-- String comparison is transitive. -/
theorem strLeB_trans {a b c : String} (h1 : strLeB a b = true) (h2 : strLeB b c = true) :
    strLeB a c = true :=
  charsLe_trans a.data b.data c.data h1 h2

/-- Membership is preserved by sorted insertion. -/
theorem mem_insertSorted (x y : String) (l : List String) :
    y ∈ insertSorted x l ↔ y = x ∨ y ∈ l := by
  induction l with
  | nil => simp [insertSorted]
  | cons z t ih =>
      by_cases hle : strLeB x z
      · simp [insertSorted, hle]
      · rw [show insertSorted x (z :: t) = z :: insertSorted x t by simp [insertSorted, hle]]
        simp [ih]
        tauto

/-- Membership is preserved by sorting. -/
theorem mem_pySorted (y : String) (l : List String) : y ∈ pySorted l ↔ y ∈ l := by
  induction l with
  | nil => simp [pySorted]
  | cons x t ih => simp [pySorted, mem_insertSorted, ih]

/-- Sorted insertion preserves pairwise sortedness. -/
theorem pairwise_insertSorted (x : String) (l : List String)
    (h : l.Pairwise (fun a b => strLeB a b = true)) :
    (insertSorted x l).Pairwise (fun a b => strLeB a b = true) := by
  induction l with
  | nil => simp [insertSorted]
  | cons z t ih =>
      rcases List.pairwise_cons.mp h with ⟨hz, ht⟩
      by_cases hle : strLeB x z
      · rw [show insertSorted x (z :: t) = x :: z :: t by simp [insertSorted, hle]]
        rw [List.pairwise_cons]
        refine ⟨?_, h⟩
        intro y hy
        rcases List.mem_cons.mp hy with hy | hy
        · subst hy; exact hle
        · exact strLeB_trans hle (hz y hy)
      · rw [show insertSorted x (z :: t) = z :: insertSorted x t by simp [insertSorted, hle]]
        rw [List.pairwise_cons]
        refine ⟨?_, ih ht⟩
        intro y hy
        rcases (mem_insertSorted x y t).mp hy with hy | hy
        · subst hy
          rcases strLeB_total z y with hzy | hyz
          · exact hzy
          · exact absurd hyz hle
        · exact hz y hy

/-- The output of `pySorted` is pairwise sorted. -/
theorem pairwise_pySorted (l : List String) :
    (pySorted l).Pairwise (fun a b => strLeB a b = true) := by
  induction l with
  | nil => simp [pySorted]
  | cons x t ih => exact pairwise_insertSorted x (pySorted t) ih

/-- A first-typed hit is a member with the wanted type. -/
theorem firstTyped_some (specTypes : List (String × String)) (ioType : String) :
    ∀ (l : List String) (k : String), firstTyped specTypes ioType l = some k →
      k ∈ l ∧ alookup k specTypes = some ioType := by
  intro l
  induction l with
  | nil => intro k h; simp [firstTyped] at h
  | cons x t ih =>
      intro k h
      by_cases hx : alookup x specTypes == some ioType
      · simp [firstTyped, hx] at h
        subst h
        exact ⟨by simp, by simpa using hx⟩
      · simp only [firstTyped] at h
        rw [if_neg hx] at h
        rcases ih k h with ⟨hm, ht⟩
        exact ⟨by simp [hm], ht⟩

/-- No first-typed hit means no member has the wanted type. -/
theorem firstTyped_none (specTypes : List (String × String)) (ioType : String) :
    ∀ l : List String, firstTyped specTypes ioType l = none ↔
      ∀ k ∈ l, alookup k specTypes ≠ some ioType := by
  intro l
  induction l with
  | nil => simp [firstTyped]
  | cons x t ih =>
      by_cases hx : alookup x specTypes == some ioType
      · simp [firstTyped, hx]
        intro h
        exact absurd (by simpa using hx) h
      · simp only [firstTyped]
        rw [if_neg hx]
        rw [ih]
        constructor
        · intro h k hk
          rcases List.mem_cons.mp hk with hk | hk
          · subst hk
            simpa using hx
          · exact h k hk
        · intro h k hk
          exact h k (by simp [hk])

/-- On a pairwise-sorted list the first typed hit sorts no later than any
typed member. -/
theorem firstTyped_least (specTypes : List (String × String)) (ioType : String) :
    ∀ l : List String, l.Pairwise (fun a b => strLeB a b = true) →
      ∀ k, firstTyped specTypes ioType l = some k →
        ∀ k2 ∈ l, alookup k2 specTypes = some ioType → strLeB k k2 = true := by
  intro l
  induction l with
  | nil => intro _ k h; simp [firstTyped] at h
  | cons x t ih =>
      intro hp k h k2 hk2 ht2
      rcases List.pairwise_cons.mp hp with ⟨hx, htp⟩
      by_cases hxt : alookup x specTypes == some ioType
      · simp [firstTyped, hxt] at h
        subst h
        rcases List.mem_cons.mp hk2 with hk2 | hk2
        · subst hk2
          exact strLeB_refl _
        · exact hx k2 hk2
      · simp only [firstTyped] at h
        rw [if_neg hxt] at h
        rcases List.mem_cons.mp hk2 with hk2 | hk2
        · subst hk2
          exact absurd ht2 (by simpa using hxt)
        · exact ih htp k h k2 hk2 ht2

/-- C7: the matcher's substring preference runs in the direction opposite
to the claim.  On deployed name cam/exposure of type int with catalog
keys exp and exposure_long (both int), the source assigns exposure_long
(the deployed segment is a substring of the catalog key), while the
claim-side matcher, which prefers a catalog key that is a substring of
the deployed segment, assigns exp. -/
theorem token_match_substring_direction_counterexample :
    matchTokenTypes (fun _ => "int") [("cam/exposure", none)]
      (some [("exp", "int"), ("exposure_long", "int")])
      = ([("cam/exposure", some "exposure_long")], some true)
    ∧ matchTokenTypesClaim (fun _ => "int") [("cam/exposure", none)]
      (some [("exp", "int"), ("exposure_long", "int")])
      = ([("cam/exposure", some "exp")], some true)
    ∧ strContainsSub "exposure" "exp" = true
    ∧ strContainsSub "exposure" "exposure_long" = false
    ∧ ("exposure_long" : String) ≠ "exp" := by
  refine ⟨by decide, by decide, by decide, by decide, by decide⟩

/-- C7 (amended): for a deployed name with no exact final-segment-plus-
type match the matcher prefers, among the unconsumed catalog keys, the
sorted-first same-typed key of which the deployed final segment is a
substring, assigning and consuming it; only when no such key exists does
it fall back to the sorted-first remaining same-typed key; and with no
same-typed key at all the name stays unassigned and flags the validation
failure. -/
theorem token_match_step_policy (specTypes : List (String × String))
    (ioType token : String) (available : List String)
    (hexact : (available.contains token && (alookup token specTypes == some ioType)) = false) :
    ((∃ k ∈ available, strContainsSub k token = true ∧ alookup k specTypes = some ioType) →
      ∃ k, matchOneToken specTypes ioType token none available
          = (some k, available.erase k, true)
        ∧ k ∈ available ∧ strContainsSub k token = true
        ∧ alookup k specTypes = some ioType
        ∧ ∀ k2 ∈ available, strContainsSub k2 token = true →
            alookup k2 specTypes = some ioType → strLeB k k2 = true)
    ∧ ((¬∃ k ∈ available, strContainsSub k token = true ∧ alookup k specTypes = some ioType) →
        ((∃ k ∈ available, alookup k specTypes = some ioType) →
          ∃ k, matchOneToken specTypes ioType token none available
              = (some k, available.erase k, true)
            ∧ k ∈ available ∧ strContainsSub k token = false
            ∧ alookup k specTypes = some ioType
            ∧ ∀ k2 ∈ available, alookup k2 specTypes = some ioType → strLeB k k2 = true)
        ∧ ((¬∃ k ∈ available, alookup k specTypes = some ioType) →
            matchOneToken specTypes ioType token none available
              = (none, available, false))) := by
  have hcondP : token ∈ available → ¬alookup token specTypes = some ioType := by
    intro hmem heq
    have htrue : (available.contains token && (alookup token specTypes == some ioType)) = true := by
      simp [hmem, heq]
    rw [hexact] at htrue
    cases htrue
  constructor
  · rintro ⟨k0, hk0av, hk0sub, hk0typ⟩
    cases hft : firstTyped specTypes ioType
        (pySorted (available.filter (fun ss => strContainsSub ss token))) with
    | none =>
        exfalso
        have hk0m : k0 ∈ pySorted (available.filter (fun ss => strContainsSub ss token)) := by
          rw [mem_pySorted]
          exact List.mem_filter.mpr ⟨hk0av, hk0sub⟩
        exact (firstTyped_none specTypes ioType _).mp hft k0 hk0m hk0typ
    | some k =>
        have hr : matchOneToken specTypes ioType token none available
            = (some k, available.erase k, true) := by
          simp [matchOneToken, hft]
          intro h1 h2
          exact absurd h2 (hcondP h1)
        obtain ⟨hkmem, hktyp⟩ := firstTyped_some specTypes ioType _ k hft
        rw [mem_pySorted] at hkmem
        obtain ⟨hkav, hksub⟩ := List.mem_filter.mp hkmem
        refine ⟨k, hr, hkav, hksub, hktyp, ?_⟩
        intro k2 hk2av hk2sub hk2typ
        refine firstTyped_least specTypes ioType _ (pairwise_pySorted _) k hft k2 ?_ hk2typ
        rw [mem_pySorted]
        exact List.mem_filter.mpr ⟨hk2av, hk2sub⟩
  · intro hnosub
    have hft1 : firstTyped specTypes ioType
        (pySorted (available.filter (fun ss => strContainsSub ss token))) = none := by
      cases hft : firstTyped specTypes ioType
          (pySorted (available.filter (fun ss => strContainsSub ss token))) with
      | none => rfl
      | some k =>
          exfalso
          obtain ⟨hkmem, hktyp⟩ := firstTyped_some specTypes ioType _ k hft
          rw [mem_pySorted] at hkmem
          obtain ⟨hkav, hksub⟩ := List.mem_filter.mp hkmem
          exact hnosub ⟨k, hkav, hksub, hktyp⟩
    constructor
    · rintro ⟨k0, hk0av, hk0typ⟩
      have hk0nsub : strContainsSub k0 token = false := by
        cases hcs : strContainsSub k0 token with
        | false => rfl
        | true => exact absurd ⟨k0, hk0av, hcs, hk0typ⟩ hnosub
      have hk0rem : k0 ∈ available.filter (fun ss => !(strContainsSub ss token)) :=
        List.mem_filter.mpr ⟨hk0av, by simp [hk0nsub]⟩
      cases hft2 : firstTyped specTypes ioType
          (pySorted (available.filter (fun ss => !(strContainsSub ss token)))) with
      | none =>
          exfalso
          exact (firstTyped_none specTypes ioType _).mp hft2 k0
            (by rw [mem_pySorted]; exact hk0rem) hk0typ
      | some k =>
          have hr : matchOneToken specTypes ioType token none available
              = (some k, available.erase k, true) := by
            simp [matchOneToken, hft1, hft2]
            intro h1 h2
            exact absurd h2 (hcondP h1)
          obtain ⟨hkmem, hktyp⟩ := firstTyped_some specTypes ioType _ k hft2
          rw [mem_pySorted] at hkmem
          obtain ⟨hkav, hknsub⟩ := List.mem_filter.mp hkmem
          have hknsub2 : strContainsSub k token = false := by
            simpa using hknsub
          refine ⟨k, hr, hkav, hknsub2, hktyp, ?_⟩
          intro k2 hk2av hk2typ
          have hk2nsub : strContainsSub k2 token = false := by
            cases hcs : strContainsSub k2 token with
            | false => rfl
            | true => exact absurd ⟨k2, hk2av, hcs, hk2typ⟩ hnosub
          refine firstTyped_least specTypes ioType _ (pairwise_pySorted _) k hft2 k2 ?_ hk2typ
          rw [mem_pySorted]
          exact List.mem_filter.mpr ⟨hk2av, by simp [hk2nsub]⟩
    · intro hnotyped
      have hft2 : firstTyped specTypes ioType
          (pySorted (available.filter (fun ss => !(strContainsSub ss token)))) = none := by
        cases hft : firstTyped specTypes ioType
            (pySorted (available.filter (fun ss => !(strContainsSub ss token)))) with
        | none => rfl
        | some k =>
            exfalso
            obtain ⟨hkmem, hktyp⟩ := firstTyped_some specTypes ioType _ k hft
            rw [mem_pySorted] at hkmem
            obtain ⟨hkav, _⟩ := List.mem_filter.mp hkmem
            exact hnotyped ⟨k, hkav, hktyp⟩
      simp [matchOneToken, hft1, hft2]
      exact hcondP

/-- Witness for the amended C7: with catalog keys exp and exposure_long
and deployed segment exposure (type int, no exact match), the matcher
assigns and consumes exposure_long, the sorted-first same-typed key
containing the segment. -/
theorem token_match_step_policy_witness :
    ((["exp", "exposure_long"].contains "exposure"
        && (alookup "exposure" [("exp", "int"), ("exposure_long", "int")] == some "int"))
      = false)
    ∧ (∃ k ∈ ["exp", "exposure_long"], strContainsSub k "exposure" = true
        ∧ alookup k [("exp", "int"), ("exposure_long", "int")] = some "int")
    ∧ ∃ k, matchOneToken [("exp", "int"), ("exposure_long", "int")] "int" "exposure" none
          ["exp", "exposure_long"]
        = (some k, (["exp", "exposure_long"] : List String).erase k, true)
      ∧ k ∈ ["exp", "exposure_long"] ∧ strContainsSub k "exposure" = true
      ∧ alookup k [("exp", "int"), ("exposure_long", "int")] = some "int"
      ∧ ∀ k2 ∈ ["exp", "exposure_long"], strContainsSub k2 "exposure" = true →
          alookup k2 [("exp", "int"), ("exposure_long", "int")] = some "int" →
          strLeB k k2 = true :=
  ⟨by decide, by decide,
    (token_match_step_policy [("exp", "int"), ("exposure_long", "int")] "int" "exposure"
      ["exp", "exposure_long"] (by decide)).1
      ⟨"exposure_long", by decide, by decide, by decide⟩⟩

end ChrisRosModeling
